import Mathlib

/-!
Verification development for the citation-classification core of the
ScholarlyImpactAnalysis repository (file `level2-analysis.py`).

Text is modelled as `List Char` (the logical model of Lean `String`s).
Python regular-expression searches are embedded as bespoke total scanners
that implement the exact patterns appearing in the source; each matcher is
annotated with the regex it embeds.  ASCII semantics are used for
`\w`, `\s`, `lower()` and `strip()` (the Python versions are Unicode-aware;
all inputs the classifier sees from its own pipeline, and all concrete
inputs used below, are ASCII, where the two agree).

Absent values (Python `None` / pandas `NaN`) are modelled as `none : Option
String`.
-/

namespace ScholarlyImpact

/-- Python `\s` character class, ASCII part: space, tab, newline, carriage
return, vertical tab, form feed. -/
def pySpace (ch : Char) : Bool :=
  ch = ' ' || ch = '\t' || ch = '\n' || ch = '\r' || ch = Char.ofNat 11 || ch = Char.ofNat 12

/-- Python `\w` word-character class (ASCII part): letters, digits, underscore. -/
def isWordChar (ch : Char) : Bool :=
  ch.isAlpha || ch.isDigit || ch = '_'

/-- ASCII apostrophe (used by the thesis title regex `master('|)s`). -/
def apos : Char := Char.ofNat 39

/-- Python `str.strip()`: remove leading and trailing whitespace. -/
def stripList (cs : List Char) : List Char :=
  ((cs.dropWhile pySpace).reverse.dropWhile pySpace).reverse

/-- Source `normalize(x)` (level2-analysis.py:29-30):
`str(x).strip().lower()` for a present value, `""` for `None`/`NaN`. -/
def normalize (x : Option String) : List Char :=
  match x with
  | none => []
  | some s => (stripList s.data).map Char.toLower

/-- Source `is_patent_field(x)` (level2-analysis.py:35-39): a value is a
populated patent field unless it is absent or normalizes to one of
`""`, `"nan"`, `"none"`, `"0"`. -/
def is_patent_field (x : Option String) : Bool :=
  match x with
  | none => false
  | some s =>
    let t := (stripList s.data).map Char.toLower
    if t = [] ∨ t = "nan".data ∨ t = "none".data ∨ t = "0".data then false else true

/-- Does `needle` occur as a leading segment of `hay`? -/
def leadsList : List Char → List Char → Bool
  | [], _ => true
  | _ :: _, [] => false
  | n :: ns, h :: hs => n = h && leadsList ns hs

/-- Remainder of `hay` after consuming the leading segment `needle`
(`none` if `needle` does not lead `hay`). -/
def dropAfter : List Char → List Char → Option (List Char)
  | [], hay => some hay
  | _ :: _, [] => none
  | n :: ns, h :: hs => if n = h then dropAfter ns hs else none

/-- Python substring test `needle in hay` (also `re.search` of a literal
pattern). -/
def containsSub (needle : List Char) : List Char → Bool
  | [] => leadsList needle []
  | c :: rest => leadsList needle (c :: rest) || containsSub needle rest

/-- Does `needle` match at this position with a word boundary after it?
Assumes the needle ends with a word character, as every bounded literal in
the source does. -/
def boundedHere (needle hay : List Char) : Bool :=
  match dropAfter needle hay with
  | some rest =>
    match rest with
    | [] => true
    | c :: _ => !isWordChar c
  | none => false

/-- Generic scanner for `re.search` of a pattern `\b...`: try the position
matcher `atM` at every position whose preceding character is not a word
character.  `prevWord` records whether the previous character was a word
character (`false` at the start of the string). -/
def searchWB (atM : List Char → Bool) : Bool → List Char → Bool
  | prevWord, [] => !prevWord && atM []
  | prevWord, c :: rest => (!prevWord && atM (c :: rest)) || searchWB atM (isWordChar c) rest

/-- `re.search(r"\bneedle\b", hay)` for a literal needle starting and ending
with word characters. -/
def wordBounded (needle : List Char) (hay : List Char) : Bool :=
  searchWB (boundedHere needle) false hay

/-- Source `match_any(patterns, text)` (level2-analysis.py:32-33), with the
compiled patterns represented as matcher functions. -/
def match_any (patterns : List (List Char → Bool)) (text : List Char) : Bool :=
  patterns.any (fun p => p text)

/-! ### Patent patterns (level2-analysis.py:131-141) -/

/-- Separator class `[\s-]` used inside the jurisdiction+number patterns. -/
def sepChar (ch : Char) : Bool := pySpace ch || ch = '-'

/-- Position matcher for `CC[\s-]*\d+\b` (after the leading `\b` handled by
`searchWB`): the two-letter code, an optional run of separators, at least
one digit, then a word boundary.  The digit run is maximal, which is what
the greedy `\d+` followed by `\b` matches. -/
def ccNumAt (cc : List Char) (cs : List Char) : Bool :=
  match dropAfter cc cs with
  | some r1 =>
    let r2 := r1.dropWhile sepChar
    let ds := r2.takeWhile Char.isDigit
    (!ds.isEmpty) &&
      (match r2.dropWhile Char.isDigit with
       | [] => true
       | c :: _ => !isWordChar c)
  | none => false

/-- `re.search(r"\bCC[\s-]*\d+\b", s)` for a two-letter jurisdiction code
`CC` (source patterns for EP, WO, CN, KR, JP).  Note the source compiles
these patterns without `re.IGNORECASE`, so the upper-case codes can never
match the lower-cased combined surface they are searched in. -/
def ccNumMatch (cc : List Char) (s : List Char) : Bool :=
  searchWB (ccNumAt cc) false s

/-- Position matcher for `US[\s-]*\d+[\s-]*[AB]\d+\b`. -/
def usPatAt (cs : List Char) : Bool :=
  match dropAfter "US".data cs with
  | some r1 =>
    let r2 := r1.dropWhile sepChar
    let d1 := r2.takeWhile Char.isDigit
    let r3 := (r2.dropWhile Char.isDigit).dropWhile sepChar
    (!d1.isEmpty) &&
      (match r3 with
       | c :: r4 =>
         (c = 'A' || c = 'B') &&
           (let d2 := r4.takeWhile Char.isDigit
            (!d2.isEmpty) &&
              (match r4.dropWhile Char.isDigit with
               | [] => true
               | c2 :: _ => !isWordChar c2))
       | [] => false)
  | none => false

/-- `re.search(r"\bUS[\s-]*\d+[\s-]*[AB]\d+\b", s)`. -/
def usPatMatch (s : List Char) : Bool :=
  searchWB usPatAt false s

/-- Source `patent_patterns` (level2-analysis.py:131-141) combined with
`match_any`: three literal domains plus the jurisdiction+number patterns. -/
def patentPatternList : List (List Char → Bool) :=
  [containsSub "patents.google.com".data,
   containsSub "lens.org".data,
   containsSub "uspto.gov".data,
   usPatMatch,
   ccNumMatch "EP".data,
   ccNumMatch "WO".data,
   ccNumMatch "CN".data,
   ccNumMatch "KR".data,
   ccNumMatch "JP".data]

/-! ### Thesis patterns (level2-analysis.py:151-167) -/

/-- Source `thesis_domains` (level2-analysis.py:151-155). -/
def thesisDomains : List (List Char) :=
  ["search.proquest.com".data, "pqdtopen.proquest.com".data, "theses.fr".data,
   "ethos.bl.uk".data, "dspace".data, "etd.".data, "repository.".data,
   "hdl.handle.net".data, "openscholarship".data, "escholarship".data,
   ".library.".data]

/-- Alternatives of the title regex
`\b(thesis|dissertation|doctoral|phd|master('|)s)\b` (line 160). -/
def thesisTitleWords : List (List Char) :=
  ["thesis".data, "dissertation".data, "doctoral".data, "phd".data,
   "masters".data, "master".data ++ [apos, 's']]

/-- `re.search(r"\b(thesis|dissertation|doctoral|phd|master('|)s)\b", t)`. -/
def thesisTitleMatch (t : List Char) : Bool :=
  thesisTitleWords.any (fun w => wordBounded w t)

/-- `re.search(r"submitted\s+(to|by)", a)` (line 162): the literal
`submitted`, at least one whitespace character, then `to` or `by`.  The
greedy `\s+` is a maximal whitespace run (neither `to` nor `by` starts with
whitespace, so no backtracking case differs). -/
def submittedToBy : List Char → Bool
  | [] => false
  | c :: rest =>
    (match dropAfter "submitted".data (c :: rest) with
     | some r1 =>
       (match r1 with
        | c1 :: _ => pySpace c1
        | [] => false) &&
         (let r2 := r1.dropWhile pySpace
          leadsList "to".data r2 || leadsList "by".data r2)
     | none => false)
    || submittedToBy rest

/-- Alternatives of the container regex
`thesis|dissertation|submitted to|graduate school|department` (line 166):
plain alternation of literals, i.e. substring tests. -/
def thesisContainerMatch (c : List Char) : Bool :=
  containsSub "thesis".data c || containsSub "dissertation".data c ||
    containsSub "submitted to".data c || containsSub "graduate school".data c ||
    containsSub "department".data c

/-! ### Review / survey patterns (level2-analysis.py:170-182) -/

/-- Expansions of `this paper (presents|provides|gives) (a )?(comprehensive )?(survey|review)`:
a fixed alternation of literals, so occurrence of the pattern is occurrence
of one of the 24 expanded strings. -/
def paperVerbStrings : List (List Char) :=
  (["presents", "provides", "gives"].map String.data).flatMap (fun v =>
    ([" ", " a "].map String.data).flatMap (fun o1 =>
      (["", "comprehensive "].map String.data).flatMap (fun o2 =>
        (["survey", "review"].map String.data).map (fun e =>
          "this paper ".data ++ v ++ o1 ++ o2 ++ e))))

/-- Source `survey_phrases` (level2-analysis.py:170-175) searched in the
abstract: literal phrases, the `this paper ...` family, and the two
word-bounded phrases `\bwe survey\b`, `\bwe review\b`. -/
def surveyPhraseMatch (a : List Char) : Bool :=
  containsSub "in this survey".data a || containsSub "in this review".data a ||
    containsSub "this survey".data a || containsSub "this review".data a ||
    paperVerbStrings.any (fun p => containsSub p a) ||
    containsSub "comprehensive survey".data a || containsSub "systematic review".data a ||
    containsSub "literature review".data a ||
    containsSub "overview of the state of the art".data a ||
    wordBounded "we survey".data a || wordBounded "we review".data a

/-- Anchored title regex
`^(a\s+(comprehensive\s+)?(survey|review)|systematic review)` (line 178). -/
def titleReviewStart (t : List Char) : Bool :=
  leadsList "systematic review".data t ||
    (match t with
     | 'a' :: rest =>
       (match rest with
        | c1 :: _ => pySpace c1
        | [] => false) &&
         (let r1 := rest.dropWhile pySpace
          leadsList "survey".data r1 || leadsList "review".data r1 ||
            (match dropAfter "comprehensive".data r1 with
             | some r2 =>
               (match r2 with
                | c2 :: _ => pySpace c2
                | [] => false) &&
                 (let r3 := r2.dropWhile pySpace
                  leadsList "survey".data r3 || leadsList "review".data r3)
             | none => false))
     | _ => false)

/-- Title test of lines 180-182: `\bsurvey\b` or `\breview\b`, excluding
titles containing `book review`, `peer review` or `double blind review`. -/
def titleSurveyReview (t : List Char) : Bool :=
  (wordBounded "survey".data t || wordBounded "review".data t) &&
    !(containsSub "book review".data t || containsSub "peer review".data t ||
      containsSub "double blind review".data t)

/-! ### Conference patterns (level2-analysis.py:185-189) -/

/-- Source `lncs_patterns` combined with `match_any`: three literal series
names, three word-bounded abbreviations, and the literal Springer chapter
path. -/
def lncsPatternMatch (s : List Char) : Bool :=
  containsSub "lecture notes in computer science".data s ||
    containsSub "lecture notes in artificial intelligence".data s ||
    containsSub "lecture notes in bioinformatics".data s ||
    wordBounded "lncs".data s || wordBounded "lnai".data s ||
    wordBounded "lnbi".data s ||
    containsSub "/chapter/10.1007/".data s

/-! ### Book patterns (level2-analysis.py:194-211) -/

/-- Source `strong_doi_prefixes` (line 194).  `10.1016/B` keeps its
upper-case `B` exactly as in the source; it is tested against the
lower-cased URL and therefore can never match. -/
def strongDoiStarts : List (List Char) :=
  ["10.1007/978".data, "10.1016/B".data, "10.1201/".data, "10.1093/".data,
   "10.4324/".data]

/-- Source `book_publishers` (line 195). -/
def bookPublishers : List (List Char) :=
  ["cambridge.org".data, "elsevier".data, "taylorandfrancis".data,
   "oxfordacademic".data, "crcpress".data, "routledge".data]

/-- Source `book_keywords` (line 196): word-bounded keywords. -/
def bookKeywords : List (List Char) :=
  ["handbook".data, "encyclopedia".data, "textbook".data, "monograph".data,
   "springerbriefs".data]

/-- Character class `[-\d]` of the ISBN pattern. -/
def isbnRunChar (ch : Char) : Bool := ch.isDigit || ch = '-'

/-- Position matcher for `97[89][-\d]{10,}\b`: after `97` and an `8` or `9`,
the greedy `[-\d]{10,}` takes the maximal run of digits/hyphens and
backtracks until the trailing `\b` holds.  The quantifier may stop after
any `k ≥ 10` characters of the maximal run; `\b` holds there when exactly
one of the character consumed last and the character following it is a word
character (within the class, word means digit and `-` means non-word; a
position at the very end of the string counts as non-word). -/
def isbnAt (cs : List Char) : Bool :=
  match dropAfter "97".data cs with
  | some r1 =>
    match r1 with
    | c :: r2 =>
      (c = '8' || c = '9') &&
        (let run := r2.takeWhile isbnRunChar
         let after := r2.dropWhile isbnRunChar
         let afterWord : Bool := match after with
           | [] => false
           | c2 :: _ => isWordChar c2
         decide (10 ≤ run.length) &&
           (((run.getLast? == some '-') == afterWord) ||
             ((run.drop 9).zip (run.drop 10)).any
               (fun p => (p.1 == '-') != (p.2 == '-'))))
    | [] => false
  | none => false

/-- `re.search(r"\b97[89][-\d]{10,}\b", s)` (line 197). -/
def isbnMatch (s : List Char) : Bool :=
  searchWB isbnAt false s

/-! ### The score map

The Python `labels` dict (insertion-ordered, unique keys) is modelled as an
association list.  `assign` models `labels[k] = v` (update in place, append
new keys at the end); `popL` models `labels.pop(k, None)` (on an
association list with unique keys, removing every entry for `k` is the same
as removing the single one). -/

/-- Score map from label name to integer score. -/
abbrev Labels : Type := List (String × Nat)

/-- Dict lookup `labels.get(k)`. -/
def lookupL : Labels → String → Option Nat
  | [], _ => none
  | (k', v) :: rest, k => if k' = k then some v else lookupL rest k

/-- Dict lookup with default, `labels.get(k, 0)`. -/
def getD (l : Labels) (k : String) : Nat :=
  (lookupL l k).getD 0

/-- Dict assignment `labels[k] = v`. -/
def assign : Labels → String → Nat → Labels
  | [], k, v => [(k, v)]
  | (k', v') :: rest, k, v =>
    if k' = k then (k, v) :: rest else (k', v') :: assign rest k v

/-- The idiom `labels[k] = max(labels.get(k, 0), v)` used by every scoring
rule after the first. -/
def setMax (l : Labels) (k : String) (v : Nat) : Labels :=
  assign l k (Nat.max (getD l k) v)

/-- Dict removal `labels.pop(k, None)`. -/
def popL : Labels → String → Labels
  | [], _ => []
  | (k', v) :: rest, k =>
    if k' = k then popL rest k else (k', v) :: popL rest k

/-- Key list `labels.keys()` in insertion order. -/
def keysL (l : Labels) : List String := l.map Prod.fst

/-- One guarded scoring rule of `classify_item`:
`if c: labels[lbl] = max(labels.get(lbl, 0), v)`. -/
def rule (c : Bool) (lbl : String) (v : Nat) (l : Labels) : Labels :=
  if c then setMax l lbl v else l

/-- One guarded negative filter of `classify_item`:
`if c: labels.pop(lbl, None)`. -/
def filterRule (c : Bool) (lbl : String) (l : Labels) : Labels :=
  if c then popL l lbl else l

/-! ### Priority order and top-label resolution (level2-analysis.py:15-24, 242) -/

/-- Source `LABEL_PRIORITY` (level2-analysis.py:15-24). -/
def LABEL_PRIORITY : List String :=
  ["patent", "thesis", "review", "conference", "journal", "book", "preprint", "unknown"]

/-- Python `list.index`, specialised to the priority list.  (Python raises
`ValueError` for an absent element; this model returns the list length
there.  The classifier only ever sorts keys drawn from `LABEL_PRIORITY`, so
the two agree on every reachable input.) -/
def listIndex : List String → String → Nat
  | [], _ => 0
  | y :: rest, k => if y = k then 0 else listIndex rest k + 1

/-- Priority index of a label, `LABEL_PRIORITY.index(x)`. -/
def pIdx (k : String) : Nat := listIndex LABEL_PRIORITY k

/-- Stable insertion for sorting by priority index. -/
def insertByPriority (k : String) : List String → List String
  | [] => [k]
  | x :: rest =>
    if pIdx x ≤ pIdx k then x :: insertByPriority k rest else k :: x :: rest

/-- Stable sort by priority index, modelling
`sorted(labels.keys(), key=lambda x: LABEL_PRIORITY.index(x))`. -/
def sortByPriority : List String → List String
  | [] => []
  | x :: rest => insertByPriority x (sortByPriority rest)

/-- Top-label resolution (level2-analysis.py:242): the first element of the
keys sorted by priority index.  The source indexes `[0]` of a list that is
provably never empty; the default `""` of this model is never returned. -/
def topLabel (l : Labels) : String :=
  (sortByPriority (keysL l)).headD ""

/-! ### Enrichment metadata record -/

/-- Normalized enrichment metadata `{source, type, venue_type, publisher}`
built by `enrich_metadata` (level2-analysis.py:89-94, 99-104). -/
structure Enrichment where
  source : String
  type : Option String
  venue_type : Option String
  publisher : Option String
deriving DecidableEq

/-- Source expression
`normalize(meta["type"]) if meta and meta.get("type") else ""`
(level2-analysis.py:127). -/
def metaTypeOf (meta : Option Enrichment) : List Char :=
  match meta with
  | some m =>
    match m.type with
    | some s => normalize (some s)
    | none => []
  | none => []

/-- Source expression
`normalize(meta["venue_type"]) if meta and meta.get("venue_type") else ""`
(level2-analysis.py:128). -/
def metaVenueTypeOf (meta : Option Enrichment) : List Char :=
  match meta with
  | some m =>
    match m.venue_type with
    | some s => normalize (some s)
    | none => []
  | none => []

/-! ### Scoring stages (level2-analysis.py:130-240)

Each stage mirrors, in order, one numbered block of `classify_item`. -/

/-- Guard of block 1 (level2-analysis.py:142-147). -/
def patentCond (lens_id lens_pub_number lens_family_id : Option String)
    (tcau : List Char) : Bool :=
  is_patent_field lens_id || is_patent_field lens_pub_number ||
    is_patent_field lens_family_id || match_any patentPatternList tcau

/-- Block 1, patent (level2-analysis.py:130-148): `labels["patent"] = 5`. -/
def stagePatent (lens_id lens_pub_number lens_family_id : Option String)
    (tcau : List Char) (l : Labels) : Labels :=
  if patentCond lens_id lens_pub_number lens_family_id tcau then
    assign l "patent" 5
  else l

/-- Block 2, thesis (level2-analysis.py:150-167): five independent rules,
each raising the thesis score to at least its tier. -/
def stageThesis (u mt t a c : List Char) (l : Labels) : Labels :=
  let l1 := rule (thesisDomains.any (fun d => containsSub d u)) "thesis" 5 l
  let l2 := rule (containsSub "thesis".data mt || containsSub "dissertation".data mt)
    "thesis" 5 l1
  let l3 := rule (thesisTitleMatch t) "thesis" 4 l2
  let l4 := rule (submittedToBy a ||
      containsSub "in partial fulfillment of the requirements".data a ||
      containsSub "this thesis".data a || containsSub "this dissertation".data a)
    "thesis" 5 l3
  rule (containsSub "university".data c && thesisContainerMatch c) "thesis" 4 l4

/-- Block 3, review / survey (level2-analysis.py:169-182). -/
def stageReview (a t : List Char) (l : Labels) : Labels :=
  let l1 := rule (surveyPhraseMatch a) "review" 5 l
  let l2 := rule (titleReviewStart t) "review" 5 l1
  rule (titleSurveyReview t) "review" 4 l2

/-- Guard of block 4 (level2-analysis.py:190): note that the lecture-notes
patterns are searched in the combined surface `tcau`, not in the container
alone. -/
def conferenceCond (tcau mv t : List Char) : Bool :=
  lncsPatternMatch tcau || mv == "conference".data || containsSub "proceedings".data t

/-- Block 4, conference (level2-analysis.py:184-191). -/
def stageConference (tcau mv t : List Char) (l : Labels) : Labels :=
  rule (conferenceCond tcau mv t) "conference" 4 l

/-- Strong book evidence (level2-analysis.py:199-205). -/
def strongBookCond (mt u c : List Char) : Bool :=
  (mt == "book".data || mt == "book-chapter".data || mt == "edited-book".data ||
    mt == "monograph".data) ||
  (strongDoiStarts.any (fun p => containsSub p u) || isbnMatch c ||
    containsSub "link.springer.com/book/".data u)

/-- Medium book evidence (level2-analysis.py:208-211). -/
def mediumBookCond (u c cr mv t : List Char) : Bool :=
  (bookPublishers.any (fun p => containsSub p u) &&
    !(containsSub "journal".data c || containsSub "journal-article".data cr ||
      mv == "journal".data)) ||
  (bookKeywords.any (fun k => wordBounded k c) ||
    bookKeywords.any (fun k => wordBounded k t))

/-- Block 5, book scoring (level2-analysis.py:193-216):
`if strong_book: ...5 elif medium_book: ...2`. -/
def stageBook (mt u c cr mv t : List Char) (l : Labels) : Labels :=
  if strongBookCond mt u c then setMax l "book" 5
  else rule (mediumBookCond u c cr mv t) "book" 2 l

/-- Guard shared by the second book filter (level2-analysis.py:221) and the
first journal rule (level2-analysis.py:229), which are textually the same
test in the source: `meta_venue_type == "journal" or "journal-article" in cr`. -/
def journalStrongCond (mv cr : List Char) : Bool :=
  mv == "journal".data || containsSub "journal-article".data cr

/-- Guard shared by the third book filter (level2-analysis.py:223) and the
second journal rule (level2-analysis.py:231), textually the same test in
the source: `"journal" in c or "transactions" in c`. -/
def journalContainerCond (c : List Char) : Bool :=
  containsSub "journal".data c || containsSub "transactions".data c

/-- Negative filters for book (level2-analysis.py:218-226): four
independent conditions, each dropping the book label. -/
def stageBookFilters (c mv cr : List Char) (l : Labels) : Labels :=
  let l1 := filterRule (containsSub "lncs".data c ||
      containsSub "lecture notes in computer science".data c) "book" l
  let l2 := filterRule (journalStrongCond mv cr) "book" l1
  let l3 := filterRule (journalContainerCond c) "book" l2
  filterRule (containsSub "symposium".data c || containsSub "conference".data c ||
      containsSub "workshop".data c || containsSub "proceedings".data c) "book" l3

/-- Block 6, journal (level2-analysis.py:228-232). -/
def stageJournal (mv cr c : List Char) (l : Labels) : Labels :=
  let l1 := rule (journalStrongCond mv cr) "journal" 4 l
  rule (journalContainerCond c) "journal" 3 l1

/-- Block 7, preprint (level2-analysis.py:234-236). -/
def stagePreprint (u : List Char) (l : Labels) : Labels :=
  rule (containsSub "researchgate.net".data u || containsSub "academia.edu".data u ||
    containsSub "arxiv.org".data u) "preprint" 3 l

/-- Blocks 1-7 composed over already-normalized fields. -/
def corePipeline (lens_id lens_pub_number lens_family_id : Option String)
    (tcau mt mv t a c u cr : List Char) : Labels :=
  stagePreprint u
    (stageJournal mv cr c
      (stageBookFilters c mv cr
        (stageBook mt u c cr mv t
          (stageConference tcau mv t
            (stageReview a t
              (stageThesis u mt t a c
                (stagePatent lens_id lens_pub_number lens_family_id tcau [])))))))

/-- The combined search surface `tcau = f"{t} {c} {a} {u} {cr}"`
(level2-analysis.py:125). -/
def combinedSurface (title container abstract crossref_type url : Option String) :
    List Char :=
  normalize title ++ [' '] ++ normalize container ++ [' '] ++ normalize abstract ++
    [' '] ++ normalize url ++ [' '] ++ normalize crossref_type

/-- Score map after blocks 1-7 of `classify_item`
(level2-analysis.py:116-236), before the `unknown` fallback. -/
def classifyCore (title container abstract crossref_type
    lens_id lens_pub_number lens_family_id url : Option String)
    (meta : Option Enrichment) : Labels :=
  corePipeline lens_id lens_pub_number lens_family_id
    (combinedSurface title container abstract crossref_type url)
    (metaTypeOf meta) (metaVenueTypeOf meta)
    (normalize title) (normalize abstract) (normalize container)
    (normalize url) (normalize crossref_type)

/-- Final score map of `classify_item`, including the `unknown` fallback
(level2-analysis.py:238-240): `if not labels: labels["unknown"] = 0`. -/
def classifyLabels (title container abstract crossref_type
    lens_id lens_pub_number lens_family_id url : Option String)
    (meta : Option Enrichment) : Labels :=
  if (classifyCore title container abstract crossref_type
      lens_id lens_pub_number lens_family_id url meta).isEmpty then
    assign (classifyCore title container abstract crossref_type
      lens_id lens_pub_number lens_family_id url meta) "unknown" 0
  else
    classifyCore title container abstract crossref_type
      lens_id lens_pub_number lens_family_id url meta

/-- Source `classify_item` (level2-analysis.py:116-243): the score map and
the top label. -/
def classify_item (title container abstract crossref_type
    lens_id lens_pub_number lens_family_id url : Option String)
    (meta : Option Enrichment) : Labels × String :=
  let labels := classifyLabels title container abstract crossref_type
    lens_id lens_pub_number lens_family_id url meta
  (labels, topLabel labels)

/-- The `labels` column attached to each output row by `refine_csv`
(level2-analysis.py:274): `";".join(labels.keys())`. -/
def labelsField (l : Labels) : String :=
  String.intercalate ";" (keysL l)

/-! ### Identifier extraction (level2-analysis.py:44-52) -/

/-- Character class `[-._;()/:A-Z0-9]` of the DOI pattern, compiled with
`re.I` (so letters of either case are allowed). -/
def allowedDoiChar (ch : Char) : Bool :=
  ch.isAlpha || ch.isDigit || ch = '-' || ch = '.' || ch = '_' || ch = ';' ||
    ch = '(' || ch = ')' || ch = '/' || ch = ':'

/-- The `/` and class-run part of the DOI pattern, applied to the digit run
`ds` and the text following it. -/
def doiSlashPart (ds : List Char) : List Char → Option (List Char)
  | [] => none
  | c :: r2 =>
    if c = '/' then
      if (r2.takeWhile allowedDoiChar).isEmpty then none
      else some ("10.".data ++ (ds ++ '/' :: r2.takeWhile allowedDoiChar))
    else none

/-- The `\d{4,9}/...` part of the DOI pattern, applied to the text after
`10.`: the greedy `\d{4,9}` must be followed by `/`, and a shorter digit
take would leave a digit (not `/`) next, so a match exists exactly when the
maximal digit run has length 4 to 9 and `/` plus at least one allowed
character follow. -/
def doiAfterTen (rest : List Char) : Option (List Char) :=
  if 4 ≤ (rest.takeWhile Char.isDigit).length ∧
      (rest.takeWhile Char.isDigit).length ≤ 9 then
    doiSlashPart (rest.takeWhile Char.isDigit) (rest.dropWhile Char.isDigit)
  else none

/-- Position matcher for `10\.\d{4,9}/[-._;()/:A-Z0-9]+` (with `re.I`),
returning the matched text (the trailing class run is maximal because `+`
is greedy). -/
def doiAt (cs : List Char) : Option (List Char) :=
  (dropAfter "10.".data cs).bind doiAfterTen

/-- The `(abs|pdf)/` alternative of the arXiv pattern: try `abs/` first,
then `pdf/`. -/
def absPdfTail (r1 : List Char) : Option (List Char) :=
  match dropAfter "abs/".data r1 with
  | some x => some x
  | none => dropAfter "pdf/".data r1

/-- The `\.[0-9]+` tail of the arXiv id, applied to the first digit run
`d1` and the text following it. -/
def arxivDotPart (d1 : List Char) : List Char → Option (List Char)
  | [] => none
  | c :: r3 =>
    if c = '.' then
      if (r3.takeWhile Char.isDigit).isEmpty then none
      else some (d1 ++ '.' :: r3.takeWhile Char.isDigit)
    else none

/-- The `[0-9]+\.[0-9]+` id part of the arXiv pattern.  Both `[0-9]+` runs
are maximal: the first must be followed by `.` and a shorter take would
leave a digit next; the second is greedy. -/
def arxivDigits (r2 : List Char) : Option (List Char) :=
  if (r2.takeWhile Char.isDigit).isEmpty then none
  else arxivDotPart (r2.takeWhile Char.isDigit) (r2.dropWhile Char.isDigit)

/-- Position matcher for `arxiv\.org/(abs|pdf)/([0-9]+\.[0-9]+)`, returning
the second capture group (the numeric id). -/
def arxivAt (cs : List Char) : Option (List Char) :=
  (dropAfter "arxiv.org/".data cs).bind (fun r1 => (absPdfTail r1).bind arxivDigits)

/-- Leftmost-position scan of `re.search`: try the position matcher at each
suffix, earliest first.  (Neither pattern can match the empty suffix, so
stopping before it is harmless.) -/
def scanFirst (f : List Char → Option (List Char)) : List Char → Option (List Char)
  | [] => none
  | c :: rest =>
    match f (c :: rest) with
    | some m => some m
    | none => scanFirst f rest

/-- Source `extract_doi_from_url(url)` (level2-analysis.py:44-47):
normalize, search for the DOI pattern, return the matched text. -/
def extract_doi_from_url (url : Option String) : Option String :=
  (scanFirst doiAt (normalize url)).map String.mk

/-- Source `extract_arxiv_id(url)` (level2-analysis.py:49-52): normalize,
search for the arXiv path pattern, return the numeric id group. -/
def extract_arxiv_id (url : Option String) : Option String :=
  (scanFirst arxivAt (normalize url)).map String.mk

/-! ### Metadata enrichment (level2-analysis.py:54-111)

The two lookup services are modelled as oracle functions supplied as an
explicit parameter; the body of `enrich_metadata` is translated over them.
The JSON payloads are modelled by the fields the source reads.  A Python
falsy payload (`None`, or an empty dict, which `if meta:` rejects) is
modelled as `none`.  The cache (a JSON object) is an association list from
key to stored value, where the stored value may itself be `none` (JSON
`null`, a recorded failed lookup).  The `Nat` component of the result
counts how many times the call performed the external-lookup sequence of
lines 85-104 (the cache-persisting file write of lines 108-109 is I/O and
is not modelled). -/

/-- Payload fields of an OpenAlex work that `enrich_metadata` reads. -/
structure OpenAlexWork where
  type : Option String
  host_venue_type : Option String
  host_venue_publisher : Option String
deriving DecidableEq

/-- Payload fields of a Crossref message that `enrich_metadata` reads. -/
structure CrossrefWork where
  type : Option String
  publisher : Option String
deriving DecidableEq

/-- The two external bibliographic services, as oracles:
`query_openalex(doi, arxiv_id)` (level2-analysis.py:54-66) and
`query_crossref(doi)` (level2-analysis.py:68-75).  Network failures and
non-200 statuses are already `none` in the source. -/
structure Oracles where
  openalex : Option String → Option String → Option OpenAlexWork
  crossref : String → Option CrossrefWork

/-- The enrichment cache `{key: metadata-or-null}`. -/
abbrev Cache : Type := List (String × Option Enrichment)

/-- Cache lookup (Python `key in cache` / `cache[key]`). -/
def lookupC : Cache → String → Option (Option Enrichment)
  | [], _ => none
  | (k', v) :: rest, k => if k' = k then some v else lookupC rest k

/-- Cache write `cache[key] = result`. -/
def insertC : Cache → String → Option Enrichment → Cache
  | [], k, v => [(k, v)]
  | (k', v') :: rest, k, v =>
    if k' = k then (k, v) :: rest else (k', v') :: insertC rest k v

/-- Cache key of a URL (level2-analysis.py:80):
`f"doi:{doi}" if doi else f"arxiv:{arxiv_id}" if arxiv_id else None`. -/
def keyOf (url : Option String) : Option String :=
  match extract_doi_from_url url with
  | some d => some ("doi:" ++ d)
  | none =>
    match extract_arxiv_id url with
    | some a2 => some ("arxiv:" ++ a2)
    | none => none

/-- The external-lookup sequence of `enrich_metadata`
(level2-analysis.py:85-104): OpenAlex first, then Crossref as a fallback
when a DOI is present and OpenAlex yielded nothing. -/
def resolveLookup (q : Oracles) (url : Option String) : Option Enrichment :=
  let doi := extract_doi_from_url url
  let arxiv_id := extract_arxiv_id url
  let r1 : Option Enrichment :=
    if doi.isSome || arxiv_id.isSome then
      match q.openalex doi arxiv_id with
      | some w => some ⟨"openalex", w.type, w.host_venue_type, w.host_venue_publisher⟩
      | none => none
    else none
  match doi, r1 with
  | some d, none =>
    (match q.crossref d with
     | some m => some ⟨"crossref", m.type, none, m.publisher⟩
     | none => none)
  | _, _ => r1

/-- Cache-miss or cache-hit step of `enrich_metadata`
(level2-analysis.py:82-111), given the looked-up cache entry: a hit
returns the stored value without touching the network; a miss runs the
lookup sequence once and writes the outcome (even `none`) under the key. -/
def enrichAtKey (q : Oracles) (url : Option String) (cache : Cache) (k : String) :
    Option (Option Enrichment) → Option Enrichment × Cache × Nat
  | some v => (v, cache, 0)
  | none => (resolveLookup q url, insertC cache k (resolveLookup q url), 1)

/-- Key dispatch of `enrich_metadata` (level2-analysis.py:80-111): with no
extractable identifier there is no cache interaction and no lookup. -/
def enrichWithKey (q : Oracles) (url : Option String) (cache : Cache) :
    Option String → Option Enrichment × Cache × Nat
  | some k => enrichAtKey q url cache k (lookupC cache k)
  | none => (none, cache, 0)

/-- Source `enrich_metadata(url, cache)` (level2-analysis.py:77-111),
returning the metadata, the updated cache, and the number of external
lookup sequences performed (0 on a cache hit or when no identifier is
extractable, 1 on a cache miss). -/
def enrich_metadata (q : Oracles) (url : Option String) (cache : Cache) :
    Option Enrichment × Cache × Nat :=
  enrichWithKey q url cache (keyOf url)

/-! ### Lemmas: score-map operations -/

theorem lookupL_assign_self (l : Labels) (k : String) (v : Nat) :
    lookupL (assign l k v) k = some v := by
  induction l with
  | nil => simp [assign, lookupL]
  | cons p rest ih =>
    obtain ⟨k', v'⟩ := p
    by_cases h : k' = k
    · simp [assign, h, lookupL]
    · simp [assign, h, lookupL, ih]

theorem lookupL_assign_ne (l : Labels) {k k' : String} (h : k' ≠ k) (v : Nat) :
    lookupL (assign l k v) k' = lookupL l k' := by
  induction l with
  | nil => simp [assign, lookupL, Ne.symm h]
  | cons p rest ih =>
    obtain ⟨a, b⟩ := p
    by_cases ha : a = k
    · subst ha
      simp [assign, lookupL, Ne.symm h]
    · simp [assign, ha, lookupL, ih]

theorem mem_keysL_assign {l : Labels} {k k' : String} {v : Nat} :
    k' ∈ keysL (assign l k v) ↔ k' = k ∨ k' ∈ keysL l := by
  induction l with
  | nil => simp [assign, keysL]
  | cons p rest ih =>
    obtain ⟨a, b⟩ := p
    by_cases ha : a = k
    · subst ha
      simp [assign, keysL]
    · simp [assign, ha, keysL] at ih ⊢
      tauto

theorem lookupL_isSome_iff_mem {l : Labels} {k : String} :
    (lookupL l k).isSome = true ↔ k ∈ keysL l := by
  induction l with
  | nil => simp [lookupL, keysL]
  | cons p rest ih =>
    obtain ⟨a, b⟩ := p
    by_cases ha : a = k
    · subst ha
      simp [lookupL, keysL]
    · simp [lookupL, ha, keysL, ih, Ne.symm ha]

theorem lookupL_popL_self (l : Labels) (k : String) :
    lookupL (popL l k) k = none := by
  induction l with
  | nil => simp [popL, lookupL]
  | cons p rest ih =>
    obtain ⟨a, b⟩ := p
    by_cases ha : a = k
    · simp [popL, ha, ih]
    · simp [popL, ha, lookupL, ih]

theorem lookupL_popL_ne (l : Labels) {k k' : String} (h : k' ≠ k) :
    lookupL (popL l k) k' = lookupL l k' := by
  induction l with
  | nil => simp [popL]
  | cons p rest ih =>
    obtain ⟨a, b⟩ := p
    by_cases ha : a = k
    · subst ha
      simp [popL, lookupL, Ne.symm h, ih]
    · simp [popL, ha, lookupL, ih]

theorem mem_keysL_popL {l : Labels} {k k' : String} :
    k' ∈ keysL (popL l k) ↔ k' ∈ keysL l ∧ k' ≠ k := by
  induction l with
  | nil => simp [popL, keysL]
  | cons p rest ih =>
    obtain ⟨a, b⟩ := p
    by_cases ha : a = k
    · subst ha
      have e1 : popL ((a, b) :: rest) a = popL rest a := by simp [popL]
      have e2 : keysL ((a, b) :: rest) = a :: keysL rest := rfl
      rw [e1, e2, ih, List.mem_cons]
      constructor
      · rintro ⟨h1, h2⟩
        exact ⟨Or.inr h1, h2⟩
      · rintro ⟨rfl | h1, h2⟩
        · exact absurd rfl h2
        · exact ⟨h1, h2⟩
    · have e1 : popL ((a, b) :: rest) k = (a, b) :: popL rest k := by simp [popL, ha]
      have e2 : keysL ((a, b) :: rest) = a :: keysL rest := rfl
      have e3 : keysL ((a, b) :: popL rest k) = a :: keysL (popL rest k) := rfl
      rw [e1, e3, e2, List.mem_cons, List.mem_cons, ih]
      constructor
      · rintro (rfl | ⟨h1, h2⟩)
        · exact ⟨Or.inl rfl, ha⟩
        · exact ⟨Or.inr h1, h2⟩
      · rintro ⟨rfl | h1, h2⟩
        · exact Or.inl rfl
        · exact Or.inr ⟨h1, h2⟩

theorem lookupL_setMax_self (l : Labels) (k : String) (v : Nat) :
    lookupL (setMax l k v) k = some (Nat.max (getD l k) v) :=
  lookupL_assign_self l k _

theorem lookupL_setMax_ne (l : Labels) {k k' : String} (h : k' ≠ k) (v : Nat) :
    lookupL (setMax l k v) k' = lookupL l k' :=
  lookupL_assign_ne l h _

theorem mem_keysL_setMax {l : Labels} {k k' : String} {v : Nat} :
    k' ∈ keysL (setMax l k v) ↔ k' = k ∨ k' ∈ keysL l :=
  mem_keysL_assign

theorem lookupL_rule_ne {k lbl : String} (h : k ≠ lbl) (c : Bool) (v : Nat) (l : Labels) :
    lookupL (rule c lbl v l) k = lookupL l k := by
  cases c <;> simp [rule, lookupL_setMax_ne _ h]

theorem lookupL_rule_self (c : Bool) (lbl : String) (v : Nat) (l : Labels) :
    lookupL (rule c lbl v l) lbl =
      if c then some (Nat.max (getD l lbl) v) else lookupL l lbl := by
  cases c <;> simp [rule, lookupL_setMax_self]

theorem mem_keysL_rule {k : String} {c : Bool} {lbl : String} {v : Nat} {l : Labels} :
    k ∈ keysL (rule c lbl v l) ↔ (c = true ∧ k = lbl) ∨ k ∈ keysL l := by
  cases c <;> simp [rule, mem_keysL_setMax]

theorem lookupL_filterRule_ne {k lbl : String} (h : k ≠ lbl) (c : Bool) (l : Labels) :
    lookupL (filterRule c lbl l) k = lookupL l k := by
  cases c <;> simp [filterRule, lookupL_popL_ne _ h]

theorem lookupL_filterRule_self (lbl : String) (l : Labels) :
    lookupL (filterRule true lbl l) lbl = none := by
  simp [filterRule, lookupL_popL_self]

theorem lookupL_filterRule_none {c : Bool} {lbl : String} {l : Labels}
    (h : lookupL l lbl = none) : lookupL (filterRule c lbl l) lbl = none := by
  cases c <;> simp [filterRule, lookupL_popL_self, h]

theorem mem_keysL_filterRule {k : String} {c : Bool} {lbl : String} {l : Labels} :
    k ∈ keysL (filterRule c lbl l) ↔ k ∈ keysL l ∧ (c = true → k ≠ lbl) := by
  cases c <;> simp [filterRule, mem_keysL_popL]

theorem pos_assign {l : Labels} {v : Nat} (hl : ∀ p ∈ l, 0 < p.2) (hv : 0 < v)
    (k : String) : ∀ p ∈ assign l k v, 0 < p.2 := by
  induction l with
  | nil => simpa [assign] using hv
  | cons q rest ih =>
    obtain ⟨a, b⟩ := q
    by_cases ha : a = k
    · subst ha
      intro p hp
      rcases (by simpa [assign] using hp : p = (a, v) ∨ p ∈ rest) with rfl | hmem
      · exact hv
      · exact hl p (List.mem_cons_of_mem _ hmem)
    · intro p hp
      rcases (by simpa [assign, ha] using hp : p = (a, b) ∨ p ∈ assign rest k v) with rfl | hmem
      · exact hl (a, b) (List.mem_cons_self _ _)
      · exact ih (fun q hq => hl q (List.mem_cons_of_mem _ hq)) p hmem

theorem pos_setMax {l : Labels} {v : Nat} (hl : ∀ p ∈ l, 0 < p.2) (hv : 0 < v)
    (k : String) : ∀ p ∈ setMax l k v, 0 < p.2 :=
  pos_assign hl (lt_of_lt_of_le hv (Nat.le_max_right _ _)) k

theorem pos_rule {l : Labels} {v : Nat} (hl : ∀ p ∈ l, 0 < p.2) (hv : 0 < v)
    (c : Bool) (lbl : String) : ∀ p ∈ rule c lbl v l, 0 < p.2 := by
  cases c
  · simpa [rule] using hl
  · simpa [rule] using pos_setMax hl hv lbl

theorem pos_popL {l : Labels} (hl : ∀ p ∈ l, 0 < p.2) (k : String) :
    ∀ p ∈ popL l k, 0 < p.2 := by
  induction l with
  | nil => simp [popL]
  | cons q rest ih =>
    obtain ⟨a, b⟩ := q
    have hrest : ∀ p ∈ rest, 0 < p.2 := fun q hq => hl q (List.mem_cons_of_mem _ hq)
    by_cases ha : a = k
    · simpa [popL, ha] using ih hrest
    · intro p hp
      rcases (by simpa [popL, ha] using hp : p = (a, b) ∨ p ∈ popL rest k) with rfl | hmem
      · exact hl (a, b) (List.mem_cons_self _ _)
      · exact ih hrest p hmem

theorem pos_filterRule {l : Labels} (hl : ∀ p ∈ l, 0 < p.2) (c : Bool) (lbl : String) :
    ∀ p ∈ filterRule c lbl l, 0 < p.2 := by
  cases c
  · simpa [filterRule] using hl
  · simpa [filterRule] using pos_popL hl lbl

/-! ### Lemmas: priority sorting and top-label resolution -/

theorem insertByPriority_ne_nil (k : String) (ks : List String) :
    insertByPriority k ks ≠ [] := by
  cases ks with
  | nil => simp [insertByPriority]
  | cons y rest =>
    simp only [insertByPriority]
    split <;> simp

theorem mem_insertByPriority {x k : String} {ks : List String} :
    x ∈ insertByPriority k ks ↔ x = k ∨ x ∈ ks := by
  induction ks with
  | nil => simp [insertByPriority]
  | cons y rest ih =>
    simp only [insertByPriority]
    split
    · simp only [List.mem_cons, ih]
      tauto
    · simp only [List.mem_cons]

theorem mem_sortByPriority {x : String} {ks : List String} :
    x ∈ sortByPriority ks ↔ x ∈ ks := by
  induction ks with
  | nil => simp [sortByPriority]
  | cons y rest ih => simp [sortByPriority, mem_insertByPriority, ih]

theorem sortByPriority_eq_nil_iff {ks : List String} :
    sortByPriority ks = [] ↔ ks = [] := by
  cases ks with
  | nil => simp [sortByPriority]
  | cons y rest => simp [sortByPriority, insertByPriority_ne_nil]

theorem pIdx_sort_headD_le {ks : List String} :
    ∀ x ∈ ks, pIdx ((sortByPriority ks).headD "") ≤ pIdx x := by
  induction ks with
  | nil => simp
  | cons y rest ih =>
    intro x hx
    show pIdx ((insertByPriority y (sortByPriority rest)).headD "") ≤ pIdx x
    cases hs : sortByPriority rest with
    | nil =>
      have hrest : rest = [] := sortByPriority_eq_nil_iff.mp hs
      subst hrest
      rcases List.mem_cons.mp hx with rfl | hx'
      · simp [insertByPriority]
      · simp at hx'
    | cons h0 s' =>
      have hhead : (insertByPriority y (h0 :: s')).headD "" =
          if pIdx h0 ≤ pIdx y then h0 else y := by
        simp only [insertByPriority]
        split <;> simp
      rw [hhead]
      by_cases hle : pIdx h0 ≤ pIdx y
      · rw [if_pos hle]
        rcases List.mem_cons.mp hx with rfl | hx'
        · exact hle
        · have := ih x hx'
          rwa [hs] at this
      · rw [if_neg hle]
        rcases List.mem_cons.mp hx with rfl | hx'
        · exact le_refl _
        · have h1 := ih x hx'
          rw [hs] at h1
          exact le_trans (le_of_lt (Nat.lt_of_not_le hle)) h1

theorem topLabel_mem {l : Labels} (h : l ≠ []) : topLabel l ∈ keysL l := by
  have hk : keysL l ≠ [] := by
    cases l with
    | nil => exact absurd rfl h
    | cons p rest => simp [keysL]
  cases hs : sortByPriority (keysL l) with
  | nil => exact absurd (sortByPriority_eq_nil_iff.mp hs) hk
  | cons a s' =>
    have : topLabel l = a := by simp [topLabel, hs]
    rw [this]
    have : a ∈ sortByPriority (keysL l) := by
      rw [hs]
      exact List.mem_cons_self _ _
    exact mem_sortByPriority.mp this

theorem topLabel_min {l : Labels} {k : String} (h : k ∈ keysL l) :
    pIdx (topLabel l) ≤ pIdx k :=
  pIdx_sort_headD_le k h

theorem pIdx_injOn {a b : String} (ha : a ∈ LABEL_PRIORITY) (hb : b ∈ LABEL_PRIORITY)
    (h : pIdx a = pIdx b) : a = b := by
  fin_cases ha <;> fin_cases hb <;> revert h <;> decide

/-! ### Lemmas: the scoring stages -/

theorem stagePatent_lookup_ne {k : String} (h : k ≠ "patent")
    (li lp lf : Option String) (tcau : List Char) (l : Labels) :
    lookupL (stagePatent li lp lf tcau l) k = lookupL l k := by
  unfold stagePatent
  split
  · exact lookupL_assign_ne l h 5
  · rfl

theorem stagePatent_keys_sub {k : String} {li lp lf : Option String}
    {tcau : List Char} {l : Labels}
    (h : k ∈ keysL (stagePatent li lp lf tcau l)) : k = "patent" ∨ k ∈ keysL l := by
  unfold stagePatent at h
  split at h
  · exact mem_keysL_assign.mp h
  · exact Or.inr h

theorem stagePatent_mem_mono {k : String} {l : Labels} (h : k ∈ keysL l)
    (li lp lf : Option String) (tcau : List Char) :
    k ∈ keysL (stagePatent li lp lf tcau l) := by
  unfold stagePatent
  split
  · exact mem_keysL_assign.mpr (Or.inr h)
  · exact h

theorem stagePatent_pos {l : Labels} (hl : ∀ p ∈ l, 0 < p.2)
    (li lp lf : Option String) (tcau : List Char) :
    ∀ p ∈ stagePatent li lp lf tcau l, 0 < p.2 := by
  unfold stagePatent
  split
  · exact pos_assign hl (by decide) _
  · exact hl

theorem stagePatent_lookup_of_cond {li lp lf : Option String} {tcau : List Char}
    (hc : patentCond li lp lf tcau = true) (l : Labels) :
    lookupL (stagePatent li lp lf tcau l) "patent" = some 5 := by
  unfold stagePatent
  rw [if_pos hc]
  exact lookupL_assign_self l _ 5

theorem stageThesis_lookup_ne {k : String} (h : k ≠ "thesis")
    (u mt t a c : List Char) (l : Labels) :
    lookupL (stageThesis u mt t a c l) k = lookupL l k := by
  simp only [stageThesis]
  rw [lookupL_rule_ne h, lookupL_rule_ne h, lookupL_rule_ne h, lookupL_rule_ne h,
    lookupL_rule_ne h]

theorem stageThesis_keys_sub {k : String} {u mt t a c : List Char} {l : Labels}
    (h : k ∈ keysL (stageThesis u mt t a c l)) : k = "thesis" ∨ k ∈ keysL l := by
  simp only [stageThesis] at h
  rcases mem_keysL_rule.mp h with ⟨_, rfl⟩ | h
  · exact Or.inl rfl
  rcases mem_keysL_rule.mp h with ⟨_, rfl⟩ | h
  · exact Or.inl rfl
  rcases mem_keysL_rule.mp h with ⟨_, rfl⟩ | h
  · exact Or.inl rfl
  rcases mem_keysL_rule.mp h with ⟨_, rfl⟩ | h
  · exact Or.inl rfl
  rcases mem_keysL_rule.mp h with ⟨_, rfl⟩ | h
  · exact Or.inl rfl
  · exact Or.inr h

theorem stageThesis_mem_mono {k : String} {l : Labels} (h : k ∈ keysL l)
    (u mt t a c : List Char) : k ∈ keysL (stageThesis u mt t a c l) := by
  simp only [stageThesis]
  exact mem_keysL_rule.mpr (Or.inr (mem_keysL_rule.mpr (Or.inr (mem_keysL_rule.mpr
    (Or.inr (mem_keysL_rule.mpr (Or.inr (mem_keysL_rule.mpr (Or.inr h)))))))))

theorem stageThesis_pos {l : Labels} (hl : ∀ p ∈ l, 0 < p.2) (u mt t a c : List Char) :
    ∀ p ∈ stageThesis u mt t a c l, 0 < p.2 := by
  simp only [stageThesis]
  exact pos_rule (pos_rule (pos_rule (pos_rule (pos_rule hl (by decide) _ _)
    (by decide) _ _) (by decide) _ _) (by decide) _ _) (by decide) _ _

theorem stageReview_lookup_ne {k : String} (h : k ≠ "review")
    (a t : List Char) (l : Labels) :
    lookupL (stageReview a t l) k = lookupL l k := by
  simp only [stageReview]
  rw [lookupL_rule_ne h, lookupL_rule_ne h, lookupL_rule_ne h]

theorem stageReview_keys_sub {k : String} {a t : List Char} {l : Labels}
    (h : k ∈ keysL (stageReview a t l)) : k = "review" ∨ k ∈ keysL l := by
  simp only [stageReview] at h
  rcases mem_keysL_rule.mp h with ⟨_, rfl⟩ | h
  · exact Or.inl rfl
  rcases mem_keysL_rule.mp h with ⟨_, rfl⟩ | h
  · exact Or.inl rfl
  rcases mem_keysL_rule.mp h with ⟨_, rfl⟩ | h
  · exact Or.inl rfl
  · exact Or.inr h

theorem stageReview_mem_mono {k : String} {l : Labels} (h : k ∈ keysL l)
    (a t : List Char) : k ∈ keysL (stageReview a t l) := by
  simp only [stageReview]
  exact mem_keysL_rule.mpr (Or.inr (mem_keysL_rule.mpr (Or.inr
    (mem_keysL_rule.mpr (Or.inr h)))))

theorem stageReview_pos {l : Labels} (hl : ∀ p ∈ l, 0 < p.2) (a t : List Char) :
    ∀ p ∈ stageReview a t l, 0 < p.2 := by
  simp only [stageReview]
  exact pos_rule (pos_rule (pos_rule hl (by decide) _ _) (by decide) _ _) (by decide) _ _

theorem stageConference_lookup_ne {k : String} (h : k ≠ "conference")
    (tcau mv t : List Char) (l : Labels) :
    lookupL (stageConference tcau mv t l) k = lookupL l k := by
  simp only [stageConference]
  rw [lookupL_rule_ne h]

theorem stageConference_keys_sub {k : String} {tcau mv t : List Char} {l : Labels}
    (h : k ∈ keysL (stageConference tcau mv t l)) : k = "conference" ∨ k ∈ keysL l := by
  simp only [stageConference] at h
  rcases mem_keysL_rule.mp h with ⟨_, rfl⟩ | h
  · exact Or.inl rfl
  · exact Or.inr h

theorem stageConference_mem_mono {k : String} {l : Labels} (h : k ∈ keysL l)
    (tcau mv t : List Char) : k ∈ keysL (stageConference tcau mv t l) := by
  simp only [stageConference]
  exact mem_keysL_rule.mpr (Or.inr h)

theorem stageConference_pos {l : Labels} (hl : ∀ p ∈ l, 0 < p.2) (tcau mv t : List Char) :
    ∀ p ∈ stageConference tcau mv t l, 0 < p.2 := by
  simp only [stageConference]
  exact pos_rule hl (by decide) _ _

theorem stageConference_lookup_self {tcau mv t : List Char} {l : Labels}
    (h : lookupL l "conference" = none) :
    lookupL (stageConference tcau mv t l) "conference" =
      if conferenceCond tcau mv t then some 4 else none := by
  simp only [stageConference, lookupL_rule_self, getD, h]
  rfl

theorem stageBook_lookup_ne {k : String} (h : k ≠ "book")
    (mt u c cr mv t : List Char) (l : Labels) :
    lookupL (stageBook mt u c cr mv t l) k = lookupL l k := by
  unfold stageBook
  split
  · exact lookupL_setMax_ne l h 5
  · exact lookupL_rule_ne h _ _ _

theorem stageBook_keys_sub {k : String} {mt u c cr mv t : List Char} {l : Labels}
    (h : k ∈ keysL (stageBook mt u c cr mv t l)) : k = "book" ∨ k ∈ keysL l := by
  unfold stageBook at h
  split at h
  · exact mem_keysL_setMax.mp h
  · rcases mem_keysL_rule.mp h with ⟨_, rfl⟩ | h
    · exact Or.inl rfl
    · exact Or.inr h

theorem stageBook_mem_mono {k : String} {l : Labels} (h : k ∈ keysL l)
    (mt u c cr mv t : List Char) : k ∈ keysL (stageBook mt u c cr mv t l) := by
  unfold stageBook
  split
  · exact mem_keysL_setMax.mpr (Or.inr h)
  · exact mem_keysL_rule.mpr (Or.inr h)

theorem stageBook_pos {l : Labels} (hl : ∀ p ∈ l, 0 < p.2) (mt u c cr mv t : List Char) :
    ∀ p ∈ stageBook mt u c cr mv t l, 0 < p.2 := by
  unfold stageBook
  split
  · exact pos_setMax hl (by decide) _
  · exact pos_rule hl (by decide) _ _

theorem stageBookFilters_lookup_ne {k : String} (h : k ≠ "book")
    (c mv cr : List Char) (l : Labels) :
    lookupL (stageBookFilters c mv cr l) k = lookupL l k := by
  simp only [stageBookFilters]
  rw [lookupL_filterRule_ne h, lookupL_filterRule_ne h, lookupL_filterRule_ne h,
    lookupL_filterRule_ne h]

theorem stageBookFilters_keys_sub {k : String} {c mv cr : List Char} {l : Labels}
    (h : k ∈ keysL (stageBookFilters c mv cr l)) : k ∈ keysL l := by
  simp only [stageBookFilters] at h
  exact (mem_keysL_filterRule.mp ((mem_keysL_filterRule.mp ((mem_keysL_filterRule.mp
    ((mem_keysL_filterRule.mp h).1)).1)).1)).1

theorem stageBookFilters_mem_mono {k : String} (hk : k ≠ "book") {l : Labels}
    (h : k ∈ keysL l) (c mv cr : List Char) :
    k ∈ keysL (stageBookFilters c mv cr l) := by
  simp only [stageBookFilters]
  exact mem_keysL_filterRule.mpr ⟨mem_keysL_filterRule.mpr ⟨mem_keysL_filterRule.mpr
    ⟨mem_keysL_filterRule.mpr ⟨h, fun _ => hk⟩, fun _ => hk⟩, fun _ => hk⟩, fun _ => hk⟩

theorem stageBookFilters_pos {l : Labels} (hl : ∀ p ∈ l, 0 < p.2) (c mv cr : List Char) :
    ∀ p ∈ stageBookFilters c mv cr l, 0 < p.2 := by
  simp only [stageBookFilters]
  exact pos_filterRule (pos_filterRule (pos_filterRule (pos_filterRule hl _ _) _ _) _ _) _ _

theorem stageBookFilters_book_none_of_strong {c mv cr : List Char}
    (hc : journalStrongCond mv cr = true) (l : Labels) :
    lookupL (stageBookFilters c mv cr l) "book" = none := by
  simp only [stageBookFilters]
  apply lookupL_filterRule_none
  apply lookupL_filterRule_none
  rw [hc]
  exact lookupL_filterRule_self _ _

theorem stageBookFilters_book_none_of_container {c mv cr : List Char}
    (hc : journalContainerCond c = true) (l : Labels) :
    lookupL (stageBookFilters c mv cr l) "book" = none := by
  simp only [stageBookFilters]
  apply lookupL_filterRule_none
  rw [hc]
  exact lookupL_filterRule_self _ _

theorem stageJournal_lookup_ne {k : String} (h : k ≠ "journal")
    (mv cr c : List Char) (l : Labels) :
    lookupL (stageJournal mv cr c l) k = lookupL l k := by
  simp only [stageJournal]
  rw [lookupL_rule_ne h, lookupL_rule_ne h]

theorem stageJournal_keys_sub {k : String} {mv cr c : List Char} {l : Labels}
    (h : k ∈ keysL (stageJournal mv cr c l)) : k = "journal" ∨ k ∈ keysL l := by
  simp only [stageJournal] at h
  rcases mem_keysL_rule.mp h with ⟨_, rfl⟩ | h
  · exact Or.inl rfl
  rcases mem_keysL_rule.mp h with ⟨_, rfl⟩ | h
  · exact Or.inl rfl
  · exact Or.inr h

theorem stageJournal_mem_mono {k : String} {l : Labels} (h : k ∈ keysL l)
    (mv cr c : List Char) : k ∈ keysL (stageJournal mv cr c l) := by
  simp only [stageJournal]
  exact mem_keysL_rule.mpr (Or.inr (mem_keysL_rule.mpr (Or.inr h)))

theorem stageJournal_pos {l : Labels} (hl : ∀ p ∈ l, 0 < p.2) (mv cr c : List Char) :
    ∀ p ∈ stageJournal mv cr c l, 0 < p.2 := by
  simp only [stageJournal]
  exact pos_rule (pos_rule hl (by decide) _ _) (by decide) _ _

theorem stageJournal_lookup_strong {mv cr c : List Char} {l : Labels}
    (hc : journalStrongCond mv cr = true) (h : lookupL l "journal" = none) :
    lookupL (stageJournal mv cr c l) "journal" = some 4 := by
  simp only [stageJournal, lookupL_rule_self]
  split <;> simp [getD, lookupL_rule_self, hc, h]

theorem stageJournal_lookup_none {mv cr c : List Char} {l : Labels}
    (hs : journalStrongCond mv cr = false) (hc : journalContainerCond c = false)
    (h : lookupL l "journal" = none) :
    lookupL (stageJournal mv cr c l) "journal" = none := by
  simp only [stageJournal, lookupL_rule_self, hs, hc]
  simpa [lookupL_rule_self, hs] using h

theorem stagePreprint_lookup_ne {k : String} (h : k ≠ "preprint")
    (u : List Char) (l : Labels) :
    lookupL (stagePreprint u l) k = lookupL l k := by
  simp only [stagePreprint]
  rw [lookupL_rule_ne h]

theorem stagePreprint_keys_sub {k : String} {u : List Char} {l : Labels}
    (h : k ∈ keysL (stagePreprint u l)) : k = "preprint" ∨ k ∈ keysL l := by
  simp only [stagePreprint] at h
  rcases mem_keysL_rule.mp h with ⟨_, rfl⟩ | h
  · exact Or.inl rfl
  · exact Or.inr h

theorem stagePreprint_mem_mono {k : String} {l : Labels} (h : k ∈ keysL l)
    (u : List Char) : k ∈ keysL (stagePreprint u l) := by
  simp only [stagePreprint]
  exact mem_keysL_rule.mpr (Or.inr h)

theorem stagePreprint_pos {l : Labels} (hl : ∀ p ∈ l, 0 < p.2) (u : List Char) :
    ∀ p ∈ stagePreprint u l, 0 < p.2 := by
  simp only [stagePreprint]
  exact pos_rule hl (by decide) _ _

/-! ### Lemmas: the composed pipeline and the final score map -/

theorem corePipeline_lookup_patent {li lp lf : Option String} {tcau mt mv t a c u cr : List Char}
    (hc : patentCond li lp lf tcau = true) :
    lookupL (corePipeline li lp lf tcau mt mv t a c u cr) "patent" = some 5 := by
  unfold corePipeline
  rw [stagePreprint_lookup_ne (by decide), stageJournal_lookup_ne (by decide),
    stageBookFilters_lookup_ne (by decide), stageBook_lookup_ne (by decide),
    stageConference_lookup_ne (by decide), stageReview_lookup_ne (by decide),
    stageThesis_lookup_ne (by decide)]
  exact stagePatent_lookup_of_cond hc []

theorem corePipeline_keys_sub {li lp lf : Option String} {tcau mt mv t a c u cr : List Char}
    {k : String} (h : k ∈ keysL (corePipeline li lp lf tcau mt mv t a c u cr)) :
    k ∈ LABEL_PRIORITY := by
  unfold corePipeline at h
  rcases stagePreprint_keys_sub h with rfl | h
  · decide
  rcases stageJournal_keys_sub h with rfl | h
  · decide
  have h := stageBookFilters_keys_sub h
  rcases stageBook_keys_sub h with rfl | h
  · decide
  rcases stageConference_keys_sub h with rfl | h
  · decide
  rcases stageReview_keys_sub h with rfl | h
  · decide
  rcases stageThesis_keys_sub h with rfl | h
  · decide
  rcases stagePatent_keys_sub h with rfl | h
  · decide
  simp [keysL] at h

theorem corePipeline_pos (li lp lf : Option String) (tcau mt mv t a c u cr : List Char) :
    ∀ p ∈ corePipeline li lp lf tcau mt mv t a c u cr, 0 < p.2 := by
  unfold corePipeline
  have h0 : ∀ p ∈ ([] : Labels), 0 < p.2 := by simp
  exact stagePreprint_pos (stageJournal_pos (stageBookFilters_pos (stageBook_pos
    (stageConference_pos (stageReview_pos (stageThesis_pos (stagePatent_pos h0 _ _ _ _)
      _ _ _ _ _) _ _) _ _ _) _ _ _ _ _ _) _ _ _) _ _ _) _

theorem corePipeline_lookup_conference {li lp lf : Option String}
    {tcau mt mv t a c u cr : List Char} :
    lookupL (corePipeline li lp lf tcau mt mv t a c u cr) "conference" =
      if conferenceCond tcau mv t then some 4 else none := by
  unfold corePipeline
  rw [stagePreprint_lookup_ne (by decide), stageJournal_lookup_ne (by decide),
    stageBookFilters_lookup_ne (by decide), stageBook_lookup_ne (by decide)]
  apply stageConference_lookup_self
  rw [stageReview_lookup_ne (by decide), stageThesis_lookup_ne (by decide),
    stagePatent_lookup_ne (by decide)]
  rfl

theorem corePipeline_lookup_journal_strong {li lp lf : Option String}
    {tcau mt mv t a c u cr : List Char} (hc : journalStrongCond mv cr = true) :
    lookupL (corePipeline li lp lf tcau mt mv t a c u cr) "journal" = some 4 := by
  unfold corePipeline
  rw [stagePreprint_lookup_ne (by decide)]
  apply stageJournal_lookup_strong hc
  rw [stageBookFilters_lookup_ne (by decide), stageBook_lookup_ne (by decide),
    stageConference_lookup_ne (by decide), stageReview_lookup_ne (by decide),
    stageThesis_lookup_ne (by decide), stagePatent_lookup_ne (by decide)]
  rfl

theorem corePipeline_lookup_journal_none {li lp lf : Option String}
    {tcau mt mv t a c u cr : List Char} (hs : journalStrongCond mv cr = false)
    (hcc : journalContainerCond c = false) :
    lookupL (corePipeline li lp lf tcau mt mv t a c u cr) "journal" = none := by
  unfold corePipeline
  rw [stagePreprint_lookup_ne (by decide)]
  apply stageJournal_lookup_none hs hcc
  rw [stageBookFilters_lookup_ne (by decide), stageBook_lookup_ne (by decide),
    stageConference_lookup_ne (by decide), stageReview_lookup_ne (by decide),
    stageThesis_lookup_ne (by decide), stagePatent_lookup_ne (by decide)]
  rfl

theorem corePipeline_book_none_of_strong {li lp lf : Option String}
    {tcau mt mv t a c u cr : List Char} (hc : journalStrongCond mv cr = true) :
    lookupL (corePipeline li lp lf tcau mt mv t a c u cr) "book" = none := by
  unfold corePipeline
  rw [stagePreprint_lookup_ne (by decide), stageJournal_lookup_ne (by decide)]
  exact stageBookFilters_book_none_of_strong hc _

theorem corePipeline_book_none_of_container {li lp lf : Option String}
    {tcau mt mv t a c u cr : List Char} (hc : journalContainerCond c = true) :
    lookupL (corePipeline li lp lf tcau mt mv t a c u cr) "book" = none := by
  unfold corePipeline
  rw [stagePreprint_lookup_ne (by decide), stageJournal_lookup_ne (by decide)]
  exact stageBookFilters_book_none_of_container hc _

theorem classifyLabels_ne_nil (title container abstract crossref_type
    lens_id lens_pub_number lens_family_id url : Option String) (meta : Option Enrichment) :
    classifyLabels title container abstract crossref_type
      lens_id lens_pub_number lens_family_id url meta ≠ [] := by
  unfold classifyLabels
  split
  · next h =>
    rw [List.isEmpty_iff.mp h]
    simp [assign]
  · next h => simpa [List.isEmpty_iff] using h

theorem classifyLabels_lookup_ne_unknown {k : String} (hk : k ≠ "unknown")
    (title container abstract crossref_type
      lens_id lens_pub_number lens_family_id url : Option String) (meta : Option Enrichment) :
    lookupL (classifyLabels title container abstract crossref_type
        lens_id lens_pub_number lens_family_id url meta) k =
      lookupL (classifyCore title container abstract crossref_type
        lens_id lens_pub_number lens_family_id url meta) k := by
  unfold classifyLabels
  split
  · next h =>
    rw [lookupL_assign_ne _ hk, List.isEmpty_iff.mp h]
  · rfl

theorem keysL_classifyLabels_sub {title container abstract crossref_type
    lens_id lens_pub_number lens_family_id : Option String} {url : Option String}
    {meta : Option Enrichment} {k : String}
    (h : k ∈ keysL (classifyLabels title container abstract crossref_type
      lens_id lens_pub_number lens_family_id url meta)) : k ∈ LABEL_PRIORITY := by
  unfold classifyLabels at h
  split at h
  · rename_i he
    rcases mem_keysL_assign.mp h with rfl | h
    · decide
    · rw [List.isEmpty_iff.mp he] at h
      simp [keysL] at h
  · exact corePipeline_keys_sub h

theorem classifyLabels_pos_or (title container abstract crossref_type
    lens_id lens_pub_number lens_family_id url : Option String) (meta : Option Enrichment) :
    (∀ p ∈ classifyLabels title container abstract crossref_type
        lens_id lens_pub_number lens_family_id url meta, 0 < p.2) ∨
      classifyLabels title container abstract crossref_type
        lens_id lens_pub_number lens_family_id url meta = [("unknown", 0)] := by
  unfold classifyLabels
  split
  · next he =>
    right
    rw [List.isEmpty_iff.mp he]
    rfl
  · left
    exact corePipeline_pos _ _ _ _ _ _ _ _ _ _ _

theorem classify_item_fst (title container abstract crossref_type
    lens_id lens_pub_number lens_family_id url : Option String) (meta : Option Enrichment) :
    (classify_item title container abstract crossref_type
        lens_id lens_pub_number lens_family_id url meta).1 =
      classifyLabels title container abstract crossref_type
        lens_id lens_pub_number lens_family_id url meta := rfl

theorem classify_item_snd (title container abstract crossref_type
    lens_id lens_pub_number lens_family_id url : Option String) (meta : Option Enrichment) :
    (classify_item title container abstract crossref_type
        lens_id lens_pub_number lens_family_id url meta).2 =
      topLabel (classifyLabels title container abstract crossref_type
        lens_id lens_pub_number lens_family_id url meta) := rfl

theorem classifyCore_eq (title container abstract crossref_type
    lens_id lens_pub_number lens_family_id url : Option String) (meta : Option Enrichment) :
    classifyCore title container abstract crossref_type
        lens_id lens_pub_number lens_family_id url meta =
      corePipeline lens_id lens_pub_number lens_family_id
        (combinedSurface title container abstract crossref_type url)
        (metaTypeOf meta) (metaVenueTypeOf meta)
        (normalize title) (normalize abstract) (normalize container)
        (normalize url) (normalize crossref_type) := rfl

/-! ### Claim theorems -/

/-- C1: for every record whose computed score map contains at least one
positively scored label, the returned `top_label` is a member of the map
and is the unique label minimizing the fixed priority index
(`LABEL_PRIORITY`) among the labels present; the selection depends only on
this order, never on score magnitude (the scores do not appear in the
conclusion). -/
theorem top_label_priority_resolution
    (title container abstract crossref_type lens_id lens_pub_number lens_family_id
      url : Option String) (meta : Option Enrichment)
    (h : ∃ p ∈ (classify_item title container abstract crossref_type lens_id
      lens_pub_number lens_family_id url meta).1, 0 < p.2) :
    (classify_item title container abstract crossref_type lens_id
        lens_pub_number lens_family_id url meta).2 ∈
      keysL (classify_item title container abstract crossref_type lens_id
        lens_pub_number lens_family_id url meta).1 ∧
    ∀ k ∈ keysL (classify_item title container abstract crossref_type lens_id
        lens_pub_number lens_family_id url meta).1,
      k ≠ (classify_item title container abstract crossref_type lens_id
        lens_pub_number lens_family_id url meta).2 →
      pIdx ((classify_item title container abstract crossref_type lens_id
        lens_pub_number lens_family_id url meta).2) < pIdx k := by
  have hne := classifyLabels_ne_nil title container abstract crossref_type lens_id
    lens_pub_number lens_family_id url meta
  rw [classify_item_fst, classify_item_snd]
  refine ⟨topLabel_mem hne, ?_⟩
  intro k hk hkne
  refine lt_of_le_of_ne (topLabel_min hk) ?_
  intro heq
  exact hkne ((pIdx_injOn (keysL_classifyLabels_sub (topLabel_mem hne))
    (keysL_classifyLabels_sub hk) heq).symm)

theorem top_label_priority_resolution_witness :
    (∃ p ∈ (classify_item (some "A Survey of Graph Neural Networks") none none none
      none none none none none).1, 0 < p.2) ∧
    ((classify_item (some "A Survey of Graph Neural Networks") none none none
        none none none none none).2 ∈
      keysL (classify_item (some "A Survey of Graph Neural Networks") none none none
        none none none none none).1 ∧
    ∀ k ∈ keysL (classify_item (some "A Survey of Graph Neural Networks") none none none
        none none none none none).1,
      k ≠ (classify_item (some "A Survey of Graph Neural Networks") none none none
        none none none none none).2 →
      pIdx ((classify_item (some "A Survey of Graph Neural Networks") none none none
        none none none none none).2) < pIdx k) :=
  ⟨by decide, top_label_priority_resolution _ _ _ _ _ _ _ _ _ (by decide)⟩

/-- C2 counterexample: the record whose `lens_id` is the non-empty string
`"0"` (and all other fields absent) receives `top_label = "unknown"`, not
`"patent"`: `is_patent_field` rejects `"0"` even though it is non-empty, so
the claim as stated (any non-empty patent-registry identifier field) fails. -/
theorem patent_nonempty_field_cex :
    (some "0" : Option String) ≠ none ∧ ("0" : String) ≠ "" ∧
    (classify_item none none none none (some "0") none none none none).2 = "unknown" :=
  ⟨by decide, by decide, by decide⟩

/-- C2 amended: for every record with a patent-registry identifier field
that is populated in the source's sense (`is_patent_field`: present, and
not normalizing to one of `""`, `"nan"`, `"none"`, `"0"`), `classify_item`
returns `top_label = "patent"`, regardless of every other input. -/
theorem patent_field_forces_top_patent
    (title container abstract crossref_type lens_id lens_pub_number lens_family_id
      url : Option String) (meta : Option Enrichment)
    (h : is_patent_field lens_id = true ∨ is_patent_field lens_pub_number = true ∨
      is_patent_field lens_family_id = true) :
    (classify_item title container abstract crossref_type lens_id
      lens_pub_number lens_family_id url meta).2 = "patent" := by
  have hcond : patentCond lens_id lens_pub_number lens_family_id
      (combinedSurface title container abstract crossref_type url) = true := by
    unfold patentCond
    rcases h with h | h | h <;> simp [h]
  have hlook : lookupL (classifyLabels title container abstract crossref_type lens_id
      lens_pub_number lens_family_id url meta) "patent" = some 5 := by
    rw [classifyLabels_lookup_ne_unknown (by decide), classifyCore_eq]
    exact corePipeline_lookup_patent hcond
  have hmem : "patent" ∈ keysL (classifyLabels title container abstract crossref_type
      lens_id lens_pub_number lens_family_id url meta) := by
    apply lookupL_isSome_iff_mem.mp
    rw [hlook]
    rfl
  have hne := classifyLabels_ne_nil title container abstract crossref_type lens_id
    lens_pub_number lens_family_id url meta
  have htopmem := topLabel_mem hne
  have hle : pIdx (topLabel (classifyLabels title container abstract crossref_type
      lens_id lens_pub_number lens_family_id url meta)) ≤ pIdx "patent" :=
    topLabel_min hmem
  have h0 : pIdx (topLabel (classifyLabels title container abstract crossref_type
      lens_id lens_pub_number lens_family_id url meta)) = pIdx "patent" :=
    Nat.le_antisymm hle (Nat.zero_le _)
  rw [classify_item_snd]
  exact pIdx_injOn (keysL_classifyLabels_sub htopmem) (by decide) h0

theorem patent_field_forces_top_patent_witness :
    (is_patent_field (some "X123") = true ∨ is_patent_field none = true ∨
      is_patent_field none = true) ∧
    (classify_item none none none none (some "X123") none none none none).2 = "patent" :=
  ⟨Or.inl (by decide),
    patent_field_forces_top_patent none none none none (some "X123") none none none none
      (Or.inl (by decide))⟩

/-- C3: for every record, the final score map is non-empty, the returned
`top_label` is one of its keys, and whenever no scoring rule fired (the map
before the fallback is empty) the final map is exactly `{"unknown": 0}`. -/
theorem classify_labels_wellformed
    (title container abstract crossref_type lens_id lens_pub_number lens_family_id
      url : Option String) (meta : Option Enrichment) :
    (classify_item title container abstract crossref_type lens_id
        lens_pub_number lens_family_id url meta).1 ≠ [] ∧
    (classify_item title container abstract crossref_type lens_id
        lens_pub_number lens_family_id url meta).2 ∈
      keysL (classify_item title container abstract crossref_type lens_id
        lens_pub_number lens_family_id url meta).1 ∧
    (classifyCore title container abstract crossref_type lens_id
        lens_pub_number lens_family_id url meta = [] →
      (classify_item title container abstract crossref_type lens_id
        lens_pub_number lens_family_id url meta).1 = [("unknown", 0)]) := by
  have hne := classifyLabels_ne_nil title container abstract crossref_type lens_id
    lens_pub_number lens_family_id url meta
  rw [classify_item_fst, classify_item_snd]
  refine ⟨hne, topLabel_mem hne, ?_⟩
  intro he
  unfold classifyLabels
  rw [he]
  rfl

/-- C5 counterexample: a record whose enrichment metadata has venue type
`journal` (and nothing else set) gets journal score 4, not the claimed
strong-evidence score 5. -/
theorem journal_strong_tier_cex :
    journalStrongCond
      (metaVenueTypeOf (some ⟨"openalex", none, some "journal", none⟩))
      (normalize none) = true ∧
    lookupL (classify_item none none none none none none none none
      (some ⟨"openalex", none, some "journal", none⟩)).1 "journal" = some 4 :=
  ⟨by decide, by decide⟩

/-- C5 amended: for every record whose enrichment venue type is journal or
whose prior type contains `journal-article`, `classify_item` assigns the
journal label the score 4 (the code's strong tier for journal; the spec's
table places this rule in the score-5 column, which the code contradicts). -/
theorem journal_strong_tier_scores_four
    (title container abstract crossref_type lens_id lens_pub_number lens_family_id
      url : Option String) (meta : Option Enrichment)
    (h : journalStrongCond (metaVenueTypeOf meta) (normalize crossref_type) = true) :
    lookupL (classify_item title container abstract crossref_type lens_id
      lens_pub_number lens_family_id url meta).1 "journal" = some 4 := by
  rw [classify_item_fst, classifyLabels_lookup_ne_unknown (by decide), classifyCore_eq]
  exact corePipeline_lookup_journal_strong h

theorem journal_strong_tier_scores_four_witness :
    journalStrongCond
      (metaVenueTypeOf (some ⟨"openalex", none, some "journal", none⟩))
      (normalize none) = true ∧
    lookupL (classify_item none (some "x") none none none none none none
      (some ⟨"openalex", none, some "journal", none⟩)).1 "journal" = some 4 :=
  ⟨by decide,
    journal_strong_tier_scores_four none (some "x") none none none none none none
      (some ⟨"openalex", none, some "journal", none⟩) (by decide)⟩

/-- C6 counterexample: a record whose abstract alone contains a
lecture-notes phrase receives a positive conference score, although the
container matches no lecture-notes pattern, the enrichment venue type is
not conference, and `proceedings` does not appear in the title: the source
searches the lecture-notes patterns in the combined surface, not in the
container, so the claim as stated fails. -/
theorem conference_outside_container_cex :
    lookupL (classify_item none none (some "lecture notes in computer science") none
      none none none none none).1 "conference" = some 4 ∧
    lncsPatternMatch (normalize (none : Option String)) = false ∧
    (metaVenueTypeOf none == "conference".data) = false ∧
    containsSub "proceedings".data (normalize (none : Option String)) = false :=
  ⟨by decide, by decide, by decide, by decide⟩

/-- C6 amended: the conference label carries score 4 exactly when the
combined title+container+abstract+url+prior-type surface matches a
lecture-notes pattern, or the enrichment venue type is conference, or
`proceedings` appears in the title; otherwise the label is absent.  In
particular URL or abstract content alone can trigger it. -/
theorem conference_score_characterization
    (title container abstract crossref_type lens_id lens_pub_number lens_family_id
      url : Option String) (meta : Option Enrichment) :
    lookupL (classify_item title container abstract crossref_type lens_id
        lens_pub_number lens_family_id url meta).1 "conference" =
      if conferenceCond (combinedSurface title container abstract crossref_type url)
          (metaVenueTypeOf meta) (normalize title) then some 4 else none := by
  rw [classify_item_fst, classifyLabels_lookup_ne_unknown (by decide), classifyCore_eq]
  exact corePipeline_lookup_conference

/-- C7: for every record whose container contains the token `journal`, the
returned score map does not contain the book label, whatever the other
inputs (ISBN tokens, book-type enrichment, book DOI prefixes included):
the negative filter runs after all positive book evidence is gathered. -/
theorem container_journal_excludes_book
    (title container abstract crossref_type lens_id lens_pub_number lens_family_id
      url : Option String) (meta : Option Enrichment)
    (h : containsSub "journal".data (normalize container) = true) :
    "book" ∉ keysL (classify_item title container abstract crossref_type lens_id
      lens_pub_number lens_family_id url meta).1 := by
  have hcc : journalContainerCond (normalize container) = true := by
    unfold journalContainerCond
    simp [h]
  have hlook : lookupL (classify_item title container abstract crossref_type lens_id
      lens_pub_number lens_family_id url meta).1 "book" = none := by
    rw [classify_item_fst, classifyLabels_lookup_ne_unknown (by decide), classifyCore_eq]
    exact corePipeline_book_none_of_container hcc
  intro hmem
  have hs := lookupL_isSome_iff_mem.mpr hmem
  rw [hlook] at hs
  exact Bool.noConfusion hs

theorem container_journal_excludes_book_witness :
    containsSub "journal".data (normalize (some "Journal ISBN 978-3-16-148410-0")) = true ∧
    "book" ∉ keysL (classify_item none (some "Journal ISBN 978-3-16-148410-0") none none
      none none none none none).1 :=
  ⟨by decide,
    container_journal_excludes_book none (some "Journal ISBN 978-3-16-148410-0") none none
      none none none none none (by decide)⟩

/-- C8 counterexample: for the empty record, the `labels` field attached to
the output row is `"unknown"` while the set of labels with positive score
is empty: the source joins all keys of the score map, including the
zero-scored `unknown` fallback, so the claim as stated fails. -/
theorem labels_field_unknown_cex :
    (classify_item none none none none none none none none none).1 = [("unknown", 0)] ∧
    labelsField (classify_item none none none none none none none none none).1 =
      "unknown" ∧
    (((classify_item none none none none none none none none none).1.filter
      (fun p => decide (0 < p.2))).map Prod.fst) = [] :=
  ⟨by decide, by decide, by decide⟩

/-- C8 amended: the `labels` field attached to each output row is the
semicolon-join of all keys of the score map; this coincides with the set of
positively scored labels for every record on which at least one rule fired,
and is exactly the zero-scored `{"unknown": 0}` otherwise. -/
theorem labels_field_positive_or_unknown
    (title container abstract crossref_type lens_id lens_pub_number lens_family_id
      url : Option String) (meta : Option Enrichment) :
    labelsField (classify_item title container abstract crossref_type lens_id
        lens_pub_number lens_family_id url meta).1 =
      String.intercalate ";" (((classify_item title container abstract crossref_type
        lens_id lens_pub_number lens_family_id url meta).1.filter
          (fun p => decide (0 < p.2))).map Prod.fst) ∨
    (classify_item title container abstract crossref_type lens_id
      lens_pub_number lens_family_id url meta).1 = [("unknown", 0)] := by
  rw [classify_item_fst]
  rcases classifyLabels_pos_or title container abstract crossref_type lens_id
    lens_pub_number lens_family_id url meta with hpos | hunk
  · left
    have hfil : (classifyLabels title container abstract crossref_type lens_id
        lens_pub_number lens_family_id url meta).filter (fun p => decide (0 < p.2)) =
        classifyLabels title container abstract crossref_type lens_id
          lens_pub_number lens_family_id url meta :=
      List.filter_eq_self.mpr (fun a ha => by simpa using hpos a ha)
    rw [hfil]
    rfl
  · right
    exact hunk

/-- C9: for every record, the score map never contains both the book and
the journal label: every condition that lets a journal rule fire is also a
book negative filter that runs first, and book is never re-added. -/
theorem book_journal_mutually_exclusive
    (title container abstract crossref_type lens_id lens_pub_number lens_family_id
      url : Option String) (meta : Option Enrichment) :
    lookupL (classify_item title container abstract crossref_type lens_id
        lens_pub_number lens_family_id url meta).1 "book" = none ∨
    lookupL (classify_item title container abstract crossref_type lens_id
        lens_pub_number lens_family_id url meta).1 "journal" = none := by
  rw [classify_item_fst, classifyLabels_lookup_ne_unknown (by decide),
    classifyLabels_lookup_ne_unknown (by decide), classifyCore_eq]
  cases hs : journalStrongCond (metaVenueTypeOf meta) (normalize crossref_type) with
  | true => exact Or.inl (corePipeline_book_none_of_strong hs)
  | false =>
    cases hcc : journalContainerCond (normalize container) with
    | true => exact Or.inl (corePipeline_book_none_of_container hcc)
    | false => exact Or.inr (corePipeline_lookup_journal_none hs hcc)

/-! ### Claim C4: cache round-trip of the enrichment resolver -/

theorem lookupC_insertC_self (cache : Cache) (k : String) (v : Option Enrichment) :
    lookupC (insertC cache k v) k = some v := by
  induction cache with
  | nil => simp [insertC, lookupC]
  | cons p rest ih =>
    obtain ⟨k', v'⟩ := p
    by_cases h : k' = k
    · simp [insertC, h, lookupC]
    · simp [insertC, h, lookupC, ih]

/-- The all-failing pair of lookup services, used to instantiate the cache
round-trip at a concrete input. -/
def failingOracles : Oracles :=
  ⟨fun _ _ => none, fun _ => none⟩

/-- C4: for every URL from which an identifier is extractable (cache key
`doi:<doi>` or `arxiv:<id>`), starting from a cache without that key, the
first `enrich_metadata` call performs exactly one external lookup sequence
and writes its outcome (possibly `none`, a recorded failure) under the key
before returning; the second call on the resulting cache returns that
cached value, leaves the cache unchanged, and performs zero lookups. -/
theorem enrich_metadata_cache_round_trip (q : Oracles) (url : Option String)
    (cache : Cache) (k : String) (hk : keyOf url = some k)
    (hmiss : lookupC cache k = none) :
    (enrich_metadata q url cache).2.2 = 1 ∧
    lookupC (enrich_metadata q url cache).2.1 k = some (enrich_metadata q url cache).1 ∧
    enrich_metadata q url (enrich_metadata q url cache).2.1 =
      ((enrich_metadata q url cache).1, (enrich_metadata q url cache).2.1, 0) := by
  have h1 : enrich_metadata q url cache =
      (resolveLookup q url, insertC cache k (resolveLookup q url), 1) := by
    unfold enrich_metadata
    rw [hk]
    simp only [enrichWithKey]
    rw [hmiss]
    rfl
  have h2 : enrich_metadata q url (insertC cache k (resolveLookup q url)) =
      (resolveLookup q url, insertC cache k (resolveLookup q url), 0) := by
    unfold enrich_metadata
    rw [hk]
    simp only [enrichWithKey]
    rw [lookupC_insertC_self]
    rfl
  rw [h1]
  exact ⟨rfl, lookupC_insertC_self cache k _, h2⟩

theorem enrich_metadata_cache_round_trip_witness :
    (keyOf (some "https://doi.org/10.1234/abcd") = some "doi:10.1234/abcd" ∧
      lookupC [] "doi:10.1234/abcd" = none) ∧
    ((enrich_metadata failingOracles (some "https://doi.org/10.1234/abcd") []).2.2 = 1 ∧
      lookupC (enrich_metadata failingOracles (some "https://doi.org/10.1234/abcd") []).2.1
          "doi:10.1234/abcd" =
        some (enrich_metadata failingOracles (some "https://doi.org/10.1234/abcd") []).1 ∧
      enrich_metadata failingOracles (some "https://doi.org/10.1234/abcd")
          (enrich_metadata failingOracles (some "https://doi.org/10.1234/abcd") []).2.1 =
        ((enrich_metadata failingOracles (some "https://doi.org/10.1234/abcd") []).1,
          (enrich_metadata failingOracles (some "https://doi.org/10.1234/abcd") []).2.1,
          0)) :=
  ⟨⟨by decide, rfl⟩,
    enrich_metadata_cache_round_trip failingOracles
      (some "https://doi.org/10.1234/abcd") [] "doi:10.1234/abcd" (by decide) rfl⟩

/-! ### Claim C10: totality and completeness of the identifier extractors

Occurrence of each regular expression in a text is stated declaratively,
as the existence of a decomposition of the text around a substring of the
pattern's shape, independent of the scanners used by the extractors. -/

/-- Shape of a match of `10\.\d{4,9}/[-._;()/:A-Z0-9]+` (with `re.I`). -/
def DoiShape (m : List Char) : Prop :=
  ∃ ds run, m = '1' :: '0' :: '.' :: (ds ++ '/' :: run) ∧
    (∀ ch ∈ ds, ch.isDigit = true) ∧ 4 ≤ ds.length ∧ ds.length ≤ 9 ∧
    run ≠ [] ∧ (∀ ch ∈ run, allowedDoiChar ch = true)

/-- The DOI pattern occurs somewhere in `s`. -/
def OccursDoi (s : List Char) : Prop :=
  ∃ pre m post, s = pre ++ m ++ post ∧ DoiShape m

/-- Shape of a match of `arxiv\.org/(abs|pdf)/([0-9]+\.[0-9]+)`. -/
def ArxivShape (m : List Char) : Prop :=
  ∃ w d1 d2, (w = "abs".data ∨ w = "pdf".data) ∧
    m = "arxiv.org/".data ++ w ++ '/' :: (d1 ++ '.' :: d2) ∧
    d1 ≠ [] ∧ (∀ ch ∈ d1, ch.isDigit = true) ∧
    d2 ≠ [] ∧ (∀ ch ∈ d2, ch.isDigit = true)

/-- The arXiv path pattern occurs somewhere in `s`. -/
def OccursArxiv (s : List Char) : Prop :=
  ∃ pre m post, s = pre ++ m ++ post ∧ ArxivShape m

theorem takeWhile_all_append {p : Char → Bool} {ds : List Char}
    (hds : ∀ ch ∈ ds, p ch = true) {x : Char} (hx : p x = false) (t : List Char) :
    (ds ++ x :: t).takeWhile p = ds := by
  induction ds with
  | nil => simp [List.takeWhile_cons, hx]
  | cons d rest ih =>
    have hd : p d = true := hds d (List.mem_cons_self _ _)
    simp [List.takeWhile_cons, hd,
      ih (fun ch hch => hds ch (List.mem_cons_of_mem _ hch))]

theorem dropWhile_all_append {p : Char → Bool} {ds : List Char}
    (hds : ∀ ch ∈ ds, p ch = true) {x : Char} (hx : p x = false) (t : List Char) :
    (ds ++ x :: t).dropWhile p = x :: t := by
  induction ds with
  | nil => simp [List.dropWhile_cons, hx]
  | cons d rest ih =>
    have hd : p d = true := hds d (List.mem_cons_self _ _)
    simp [List.dropWhile_cons, hd,
      ih (fun ch hch => hds ch (List.mem_cons_of_mem _ hch))]

theorem dropAfter_eq_some_iff {n : List Char} :
    ∀ {h r : List Char}, dropAfter n h = some r ↔ h = n ++ r := by
  induction n with
  | nil =>
    intro h r
    simp [dropAfter]
  | cons x ns ih =>
    intro h r
    cases h with
    | nil =>
      constructor
      · intro hc
        exact Option.noConfusion hc
      · intro hc
        exact List.noConfusion hc
    | cons y hs =>
      by_cases hxy : x = y
      · subst hxy
        simp only [dropAfter, if_pos rfl, List.cons_append, List.cons.injEq, true_and]
        exact ih
      · simp only [dropAfter, if_neg hxy, List.cons_append, List.cons.injEq]
        constructor
        · intro hc
          exact Option.noConfusion hc
        · rintro ⟨h1, -⟩
          exact absurd h1.symm hxy

theorem scanFirst_isSome_iff {f : List Char → Option (List Char)} (h0 : f [] = none) :
    ∀ {s : List Char}, (scanFirst f s).isSome = true ↔
      ∃ pre rest, s = pre ++ rest ∧ (f rest).isSome = true := by
  intro s
  induction s with
  | nil =>
    simp only [scanFirst, Option.isSome_none, Bool.false_eq_true, false_iff]
    rintro ⟨pre, rest, hpr, hsome⟩
    have : rest = [] := (List.append_eq_nil.mp hpr.symm).2
    rw [this, h0] at hsome
    exact Bool.noConfusion hsome
  | cons c cs ih =>
    simp only [scanFirst]
    cases hf : f (c :: cs) with
    | some m =>
      simp only [Option.isSome_some, true_iff]
      exact ⟨[], c :: cs, rfl, by rw [hf]; rfl⟩
    | none =>
      simp only []
      rw [ih]
      constructor
      · rintro ⟨pre, rest, rfl, hsome⟩
        exact ⟨c :: pre, rest, rfl, hsome⟩
      · rintro ⟨pre, rest, hpr, hsome⟩
        cases pre with
        | nil =>
          simp at hpr
          rw [← hpr, hf] at hsome
          exact absurd hsome (by simp)
        | cons p ps =>
          injection hpr with h1 h2
          exact ⟨ps, rest, h2, hsome⟩

theorem doiAt_isSome_iff {cs : List Char} :
    (doiAt cs).isSome = true ↔ ∃ m post, cs = m ++ post ∧ DoiShape m := by
  constructor
  · intro h
    unfold doiAt at h
    cases hda : dropAfter "10.".data cs with
    | none =>
      rw [hda] at h
      exact absurd h (by simp)
    | some rest =>
      rw [hda] at h
      simp only [Option.some_bind] at h
      have hcs : cs = "10.".data ++ rest := dropAfter_eq_some_iff.mp hda
      unfold doiAfterTen at h
      split at h
      · rename_i hlen
        cases hdw : rest.dropWhile Char.isDigit with
        | nil =>
          rw [hdw] at h
          simp [doiSlashPart] at h
        | cons c r2 =>
          rw [hdw] at h
          simp only [doiSlashPart] at h
          split at h
          · rename_i hslash
            subst hslash
            split at h
            · exact absurd h (by simp)
            · rename_i hrun
              have h1 : rest.takeWhile Char.isDigit ++ '/' :: r2 = rest := by
                have := List.takeWhile_append_dropWhile Char.isDigit rest
                rwa [hdw] at this
              have hdig : ∀ ch ∈ rest.takeWhile Char.isDigit, ch.isDigit = true :=
                fun ch hch => List.mem_takeWhile_imp hch
              have hall : ∀ ch ∈ r2.takeWhile allowedDoiChar, allowedDoiChar ch = true :=
                fun ch hch => List.mem_takeWhile_imp hch
              set ds := rest.takeWhile Char.isDigit with hds_def
              set run := r2.takeWhile allowedDoiChar with hrun_def
              set pp := r2.dropWhile allowedDoiChar with hpp_def
              have h2 : run ++ pp = r2 := by
                rw [hrun_def, hpp_def]
                exact List.takeWhile_append_dropWhile allowedDoiChar r2
              refine ⟨"10.".data ++ (ds ++ '/' :: run), pp, ?_, ?_⟩
              · rw [hcs, ← h1, ← h2]
                simp [List.append_assoc, List.cons_append]
              · refine ⟨ds, run, rfl, hdig, hlen.1, hlen.2, ?_, hall⟩
                intro he
                rw [he] at hrun
                exact hrun rfl
          · exact absurd h (by simp)
      · exact absurd h (by simp)
  · rintro ⟨m, post, rfl, ds, run, hm, hds, h4, h9, hrne, hrall⟩
    subst hm
    obtain ⟨rh, rt, rfl⟩ : ∃ rh rt, run = rh :: rt := by
      cases run with
      | nil => exact absurd rfl hrne
      | cons rh rt => exact ⟨rh, rt, rfl⟩
    have hda : dropAfter "10.".data
        (('1' :: '0' :: '.' :: (ds ++ '/' :: rh :: rt)) ++ post) =
        some ((ds ++ '/' :: rh :: rt) ++ post) :=
      dropAfter_eq_some_iff.mpr rfl
    have hrh : allowedDoiChar rh = true := hrall rh (List.mem_cons_self _ _)
    have hslash : Char.isDigit '/' = false := by decide
    have hshape : (ds ++ '/' :: rh :: rt) ++ post = ds ++ '/' :: (rh :: rt ++ post) := by
      simp [List.append_assoc]
    unfold doiAt
    rw [hda]
    simp only [Option.some_bind]
    unfold doiAfterTen
    rw [hshape, takeWhile_all_append hds hslash, dropWhile_all_append hds hslash]
    rw [if_pos ⟨h4, h9⟩]
    simp only [doiSlashPart, if_pos rfl]
    rw [List.cons_append, List.takeWhile_cons, hrh]
    simp

theorem arxivAt_isSome_iff {cs : List Char} :
    (arxivAt cs).isSome = true ↔ ∃ m post, cs = m ++ post ∧ ArxivShape m := by
  constructor
  · intro h
    unfold arxivAt at h
    cases hda : dropAfter "arxiv.org/".data cs with
    | none =>
      rw [hda] at h
      exact absurd h (by simp)
    | some r1 =>
      rw [hda] at h
      simp only [Option.some_bind] at h
      have hcs : cs = "arxiv.org/".data ++ r1 := dropAfter_eq_some_iff.mp hda
      cases hap : absPdfTail r1 with
      | none =>
        rw [hap] at h
        exact absurd h (by simp)
      | some r2 =>
        rw [hap] at h
        simp only [Option.some_bind] at h
        have hr1 : r1 = "abs/".data ++ r2 ∨ r1 = "pdf/".data ++ r2 := by
          unfold absPdfTail at hap
          cases habs : dropAfter "abs/".data r1 with
          | some x =>
            rw [habs] at hap
            injection hap with hx
            exact Or.inl (by rw [← hx]; exact dropAfter_eq_some_iff.mp habs)
          | none =>
            rw [habs] at hap
            exact Or.inr (dropAfter_eq_some_iff.mp hap)
        unfold arxivDigits at h
        split at h
        · exact absurd h (by simp)
        · rename_i hd1
          cases hdw : r2.dropWhile Char.isDigit with
          | nil =>
            rw [hdw] at h
            simp [arxivDotPart] at h
          | cons c r3 =>
            rw [hdw] at h
            simp only [arxivDotPart] at h
            split at h
            · rename_i hdot
              subst hdot
              split at h
              · exact absurd h (by simp)
              · rename_i hd2
                have h1 : r2.takeWhile Char.isDigit ++ '.' :: r3 = r2 := by
                  have := List.takeWhile_append_dropWhile Char.isDigit r2
                  rwa [hdw] at this
                obtain ⟨w, hw, hr1'⟩ : ∃ w, (w = "abs".data ∨ w = "pdf".data) ∧
                    r1 = w ++ '/' :: r2 := by
                  rcases hr1 with hr1 | hr1
                  · exact ⟨"abs".data, Or.inl rfl, hr1⟩
                  · exact ⟨"pdf".data, Or.inr rfl, hr1⟩
                have hdig1 : ∀ ch ∈ r2.takeWhile Char.isDigit, ch.isDigit = true :=
                  fun ch hch => List.mem_takeWhile_imp hch
                have hdig2 : ∀ ch ∈ r3.takeWhile Char.isDigit, ch.isDigit = true :=
                  fun ch hch => List.mem_takeWhile_imp hch
                set d1 := r2.takeWhile Char.isDigit with hd1_def
                set d2 := r3.takeWhile Char.isDigit with hd2_def
                set pp := r3.dropWhile Char.isDigit with hpp_def
                have h2 : d2 ++ pp = r3 := by
                  rw [hd2_def, hpp_def]
                  exact List.takeWhile_append_dropWhile Char.isDigit r3
                refine ⟨"arxiv.org/".data ++ w ++ '/' :: (d1 ++ '.' :: d2), pp, ?_, ?_⟩
                · rw [hcs, hr1', ← h1, ← h2]
                  simp [List.append_assoc, List.cons_append]
                · refine ⟨w, d1, d2, hw, rfl, ?_, hdig1, ?_, hdig2⟩
                  · intro he
                    rw [he] at hd1
                    exact hd1 rfl
                  · intro he
                    rw [he] at hd2
                    exact hd2 rfl
            · exact absurd h (by simp)
  · rintro ⟨m, post, rfl, w, d1, d2, hw, hm, hd1ne, hd1, hd2ne, hd2⟩
    subst hm
    obtain ⟨e1, t1, rfl⟩ : ∃ e1 t1, d1 = e1 :: t1 := by
      cases d1 with
      | nil => exact absurd rfl hd1ne
      | cons e1 t1 => exact ⟨e1, t1, rfl⟩
    obtain ⟨e2, t2, rfl⟩ : ∃ e2 t2, d2 = e2 :: t2 := by
      cases d2 with
      | nil => exact absurd rfl hd2ne
      | cons e2 t2 => exact ⟨e2, t2, rfl⟩
    have hdot : Char.isDigit '.' = false := by decide
    have hda : dropAfter "arxiv.org/".data
        (("arxiv.org/".data ++ w ++ '/' :: (e1 :: t1 ++ '.' :: e2 :: t2)) ++ post) =
        some ((w ++ '/' :: (e1 :: t1 ++ '.' :: e2 :: t2)) ++ post) :=
      dropAfter_eq_some_iff.mpr (by simp [List.append_assoc])
    have hap : absPdfTail ((w ++ '/' :: (e1 :: t1 ++ '.' :: e2 :: t2)) ++ post) =
        some ((e1 :: t1 ++ '.' :: e2 :: t2) ++ post) := by
      rcases hw with rfl | rfl
      · unfold absPdfTail
        have habs : dropAfter "abs/".data
            (("abs".data ++ '/' :: (e1 :: t1 ++ '.' :: e2 :: t2)) ++ post) =
            some ((e1 :: t1 ++ '.' :: e2 :: t2) ++ post) :=
          dropAfter_eq_some_iff.mpr (by simp [List.append_assoc])
        rw [habs]
      · unfold absPdfTail
        have habs : dropAfter "abs/".data
            (("pdf".data ++ '/' :: (e1 :: t1 ++ '.' :: e2 :: t2)) ++ post) = none := rfl
        have hpdf : dropAfter "pdf/".data
            (("pdf".data ++ '/' :: (e1 :: t1 ++ '.' :: e2 :: t2)) ++ post) =
            some ((e1 :: t1 ++ '.' :: e2 :: t2) ++ post) :=
          dropAfter_eq_some_iff.mpr (by simp [List.append_assoc])
        rw [habs, hpdf]
    have he1 : Char.isDigit e1 = true := hd1 e1 (List.mem_cons_self _ _)
    have he2 : Char.isDigit e2 = true := hd2 e2 (List.mem_cons_self _ _)
    have hsh : (e1 :: t1 ++ '.' :: e2 :: t2) ++ post =
        e1 :: t1 ++ '.' :: (e2 :: t2 ++ post) := by
      simp [List.append_assoc]
    unfold arxivAt
    rw [hda]
    simp only [Option.some_bind]
    rw [hap]
    simp only [Option.some_bind]
    unfold arxivDigits
    rw [hsh, takeWhile_all_append hd1 hdot, dropWhile_all_append hd1 hdot]
    rw [if_neg (by simp)]
    simp only [arxivDotPart, if_pos rfl]
    rw [List.cons_append, List.takeWhile_cons, he2]
    simp

theorem OccursDoi_iff_scan {s : List Char} :
    OccursDoi s ↔ (scanFirst doiAt s).isSome = true := by
  constructor
  · rintro ⟨pre, m, post, rfl, hm⟩
    apply (scanFirst_isSome_iff rfl).mpr
    exact ⟨pre, m ++ post, by rw [List.append_assoc],
      doiAt_isSome_iff.mpr ⟨m, post, rfl, hm⟩⟩
  · intro h
    obtain ⟨pre, rest, rfl, hsome⟩ := (scanFirst_isSome_iff rfl).mp h
    obtain ⟨m, post, rfl, hm⟩ := doiAt_isSome_iff.mp hsome
    exact ⟨pre, m, post, by rw [List.append_assoc], hm⟩

theorem OccursArxiv_iff_scan {s : List Char} :
    OccursArxiv s ↔ (scanFirst arxivAt s).isSome = true := by
  constructor
  · rintro ⟨pre, m, post, rfl, hm⟩
    apply (scanFirst_isSome_iff rfl).mpr
    exact ⟨pre, m ++ post, by rw [List.append_assoc],
      arxivAt_isSome_iff.mpr ⟨m, post, rfl, hm⟩⟩
  · intro h
    obtain ⟨pre, rest, rfl, hsome⟩ := (scanFirst_isSome_iff rfl).mp h
    obtain ⟨m, post, rfl, hm⟩ := arxivAt_isSome_iff.mp hsome
    exact ⟨pre, m, post, by rw [List.append_assoc], hm⟩

/-- C10: for every URL input, including an absent one, the two extractors
are total functions of the input (so no exception can surface), and each
returns `none` exactly when its pattern does not occur anywhere in the
normalized (stripped, lower-cased) URL text, occurrence being stated as the
existence of a substring of the pattern's shape. -/
theorem extractors_none_iff_no_occurrence (url : Option String) :
    (extract_doi_from_url url = none ↔ ¬ OccursDoi (normalize url)) ∧
    (extract_arxiv_id url = none ↔ ¬ OccursArxiv (normalize url)) := by
  constructor
  · unfold extract_doi_from_url
    rw [Option.map_eq_none']
    constructor
    · intro h hocc
      have hs := OccursDoi_iff_scan.mp hocc
      rw [h] at hs
      exact Bool.noConfusion hs
    · intro h
      cases hs : scanFirst doiAt (normalize url) with
      | none => rfl
      | some m =>
        exact absurd (OccursDoi_iff_scan.mpr (by rw [hs]; rfl)) h
  · unfold extract_arxiv_id
    rw [Option.map_eq_none']
    constructor
    · intro h hocc
      have hs := OccursArxiv_iff_scan.mp hocc
      rw [h] at hs
      exact Bool.noConfusion hs
    · intro h
      cases hs : scanFirst arxivAt (normalize url) with
      | none => rfl
      | some m =>
        exact absurd (OccursArxiv_iff_scan.mpr (by rw [hs]; rfl)) h

end ScholarlyImpact
